import Mathlib

set_option maxHeartbeats 1000000

/-!
Shallow embedding of `src/backend/storage/smgr/smgr.c` (the storage-manager
switch of a PostgreSQL fork).

The C unit keeps three pieces of process-local mutable state:
  * `SMgrRelationHash` — a hash table keyed by `RelFileNodeBackend`, holding
    one `SMgrRelationData` entry per storage identity (modelled as a list of
    entries whose keys are unique, see `RegistryInv`);
  * `unowned_relns` — a doubly linked list of the entries with no owner
    (modelled as a list of identities);
  * externally, relcache "owner slots": cells of type `SMgrRelation *` that
    may hold a pointer to one entry (modelled as an association list from a
    slot number to the identity the slot currently references; a slot that
    holds NULL is simply absent from the list).

Pointers to hash entries are modelled by the entry's key (identity), which is
immutable in the C code.  Backend (`md`/`f_smgr`) calls do not touch this
state; where the claims need their observable behaviour (block counts,
failure of `smgr_truncate`, the order of calls in `smgrdounlinkall`) they are
modelled by explicit oracle parameters and event traces.
-/

/-- `MAX_FORKNUM` from the fork-number enumeration (INIT_FORKNUM = 3). -/
def MAX_FORKNUM : Nat := 3

/-- Number of forks: the C arrays are indexed `0 .. MAX_FORKNUM`. -/
def NFORKS : Nat := MAX_FORKNUM + 1

/-- `InvalidBlockNumber` = `0xFFFFFFFF`, the "unknown" sentinel of the
block-count cache. -/
def InvalidBlockNumber : Nat := 2 ^ 32 - 1

/-- `RELPERSISTENCE_PERMANENT` = ASCII code of the character p. -/
def RELPERSISTENCE_PERMANENT : Nat := 112

/-- `RELPERSISTENCE_UNLOGGED` = ASCII code of the character u. -/
def RELPERSISTENCE_UNLOGGED : Nat := 117

/-- `RELPERSISTENCE_TEMP` = ASCII code of the character t. -/
def RELPERSISTENCE_TEMP : Nat := 116

/-- `RelFileNode`: the relation-file identifier (three OIDs). -/
structure RelFileNode where
  spcNode : Nat
  dbNode : Nat
  relNode : Nat
deriving DecidableEq

/-- `RelFileNodeBackend`: the registry key — file identifier plus the
backend-scope discriminator (`BackendId`, an int, `-1` = shared). -/
structure RelFileNodeBackend where
  node : RelFileNode
  backend : Int
deriving DecidableEq

/-- `SMgrRelationData`: one hash-table entry.  `smgr_owner` is the back
reference to the owner slot (C: `SMgrRelation *smgr_owner`), modelled as the
slot's number.  `smgr_cached_nblocks` is the per-fork block-count cache, a
list of length `NFORKS`; the dispatch-table pointer `smgr` is not part of the
model (a single backend table is in scope). -/
structure SMgrRelationData where
  smgr_rnode : RelFileNodeBackend
  smgr_owner : Option Nat
  smgr_targblock : Nat
  smgr_relpersistence : Nat
  smgr_cached_nblocks : List Nat
deriving DecidableEq

/-- The process-local state of `smgr.c`: the `SMgrRelationHash != NULL` flag,
the hash-table contents, the `unowned_relns` list, and the contents of the
external owner slots. -/
structure SMgrState where
  hashInitialized : Bool
  relns : List SMgrRelationData
  unowned_relns : List RelFileNodeBackend
  owners : List (Nat × RelFileNodeBackend)
deriving DecidableEq

/-- The state of a backend process before the first `smgropen`. -/
def initialState : SMgrState :=
  { hashInitialized := false, relns := [], unowned_relns := [], owners := [] }

/-- Hash-table lookup (`hash_search` with `HASH_FIND`): first entry whose key
equals `id`. -/
def lookupReln : List SMgrRelationData → RelFileNodeBackend → Option SMgrRelationData
  | [], _ => none
  | r :: rs, id => if r.smgr_rnode = id then some r else lookupReln rs id

/-- In-place update of the entry with key `id` (a store through the C entry
pointer): replaces the first entry whose key is `id` by `f` of it. -/
def updateReln (id : RelFileNodeBackend) (f : SMgrRelationData → SMgrRelationData) :
    List SMgrRelationData → List SMgrRelationData
  | [] => []
  | r :: rs => if r.smgr_rnode = id then f r :: rs else r :: updateReln id f rs

/-- Hash-table removal (`hash_search` with `HASH_REMOVE`). -/
def removeReln : List SMgrRelationData → RelFileNodeBackend → List SMgrRelationData
  | [], _ => []
  | r :: rs, id => if r.smgr_rnode = id then removeReln rs id else r :: removeReln rs id

/-- `dlist_delete` on the unowned list: drop the node of `a`. -/
def eraseId : List RelFileNodeBackend → RelFileNodeBackend → List RelFileNodeBackend
  | [], _ => []
  | x :: xs, a => if x = a then xs else x :: eraseId xs a

/-- Read an owner slot: the identity of the entry it references, if any. -/
def slotGet : List (Nat × RelFileNodeBackend) → Nat → Option RelFileNodeBackend
  | [], _ => none
  | p :: ps, s => if p.1 = s then some p.2 else slotGet ps s

/-- Store NULL into an owner slot (`*slot = NULL`). -/
def removeSlot : List (Nat × RelFileNodeBackend) → Nat → List (Nat × RelFileNodeBackend)
  | [], _ => []
  | p :: ps, s => if p.1 = s then removeSlot ps s else p :: removeSlot ps s

/-- Store a reference into an owner slot (`*slot = reln`). -/
def setSlot (l : List (Nat × RelFileNodeBackend)) (s : Nat) (id : RelFileNodeBackend) :
    List (Nat × RelFileNodeBackend) :=
  (s, id) :: removeSlot l s

/-- The keys currently present in the registry. -/
def relnKeys (l : List SMgrRelationData) : List RelFileNodeBackend :=
  l.map (fun r => r.smgr_rnode)

/-- `smgropen(rnode, backend, relpersistence)` (smgr.c:144-205).
On first call the hash table and the unowned list are initialized.  A lookup
miss creates the entry — owner NULL, `smgr_targblock = InvalidBlockNumber`,
the given persistence, every cached fork size `InvalidBlockNumber` — and
pushes it on the tail of the unowned list (the backend `smgr_open` call does
descriptor setup only and is not modelled).  On a hit, an unknown (0) stored
persistence is overwritten with the argument; otherwise a concrete argument
differing from the stored concrete value raises `elog(ERROR, "relpersistence
mismatch ...")`, modelled as `Except.error`. -/
def smgropen (st : SMgrState) (rnode : RelFileNode) (backend : Int)
    (relpersistence : Nat) : Except String (SMgrState × RelFileNodeBackend) :=
  let st0 := if st.hashInitialized then st
    else { st with hashInitialized := true, relns := [], unowned_relns := [] }
  let brnode : RelFileNodeBackend := ⟨rnode, backend⟩
  match lookupReln st0.relns brnode with
  | none =>
      let reln : SMgrRelationData :=
        { smgr_rnode := brnode
          smgr_owner := none
          smgr_targblock := InvalidBlockNumber
          smgr_relpersistence := relpersistence
          smgr_cached_nblocks := List.replicate NFORKS InvalidBlockNumber }
      Except.ok ({ st0 with
        relns := st0.relns ++ [reln]
        unowned_relns := st0.unowned_relns ++ [brnode] }, brnode)
  | some reln =>
      if reln.smgr_relpersistence = 0 then
        let relns' := updateReln brnode
          (fun r => { r with smgr_relpersistence := relpersistence }) st0.relns
        Except.ok ({ st0 with relns := relns' }, brnode)
      else if relpersistence = 0 ∨ reln.smgr_relpersistence = relpersistence then
        Except.ok (st0, brnode)
      else
        Except.error "relpersistence mismatch"

/-- `smgrsetowner(owner, reln)` (smgr.c:213-236).  If the entry already has an
owner, that old slot is set to NULL; otherwise the entry is removed from the
unowned list.  Then the back reference and the slot are set.  Note: the code
does NOT detach a previous occupant of `owner`. -/
def smgrsetowner (st : SMgrState) (owner : Nat) (id : RelFileNodeBackend) : SMgrState :=
  match lookupReln st.relns id with
  | none => st
  | some reln =>
      let st1 :=
        match reln.smgr_owner with
        | some old => { st with owners := removeSlot st.owners old }
        | none => { st with unowned_relns := eraseId st.unowned_relns id }
      { st1 with
        relns := updateReln id (fun r => { r with smgr_owner := some owner }) st1.relns,
        owners := setSlot st1.owners owner id }

/-- `smgrclearowner(owner, reln)` (smgr.c:242-257).  A no-op unless the entry
is owned by exactly this slot; otherwise both directions are nulled and the
entry is pushed on the tail of the unowned list. -/
def smgrclearowner (st : SMgrState) (owner : Nat) (id : RelFileNodeBackend) : SMgrState :=
  match lookupReln st.relns id with
  | none => st
  | some reln =>
      if reln.smgr_owner ≠ some owner then st
      else
        { st with
          owners := removeSlot st.owners owner,
          relns := updateReln id (fun r => { r with smgr_owner := none }) st.relns,
          unowned_relns := st.unowned_relns ++ [id] }

/-- `smgrclose(reln)` (smgr.c:271-296).  The backend `smgr_close` calls are
descriptor teardown and not modelled.  An unowned entry is removed from the
unowned list; the entry is removed from the hash table (`elog(ERROR,
"SMgrRelation hashtable corrupted")` if absent — in the model the entry
pointer is its key, so this corresponds to a lookup failure); last, the owner
slot, if any, is set to NULL. -/
def smgrclose (st : SMgrState) (id : RelFileNodeBackend) : Except String SMgrState :=
  match lookupReln st.relns id with
  | none => Except.error "SMgrRelation hashtable corrupted"
  | some reln =>
      let st1 :=
        match reln.smgr_owner with
        | none => { st with unowned_relns := eraseId st.unowned_relns id }
        | some _ => st
      let st2 := { st1 with relns := removeReln st1.relns id }
      match reln.smgr_owner with
      | some s => Except.ok { st2 with owners := removeSlot st2.owners s }
      | none => Except.ok st2

/-- `dlist_foreach_modify` over a snapshot of node ids, closing each; each
`smgrclose` deletes only its own node, so iterating the snapshot is faithful. -/
def closeList : List RelFileNodeBackend → SMgrState → Except String SMgrState
  | [], st => Except.ok st
  | id :: rest, st =>
      match smgrclose st id with
      | Except.error e => Except.error e
      | Except.ok st' => closeList rest st'

/-- `AtEOXact_SMgr()` (smgr.c:743-761): close every entry on the unowned
list. -/
def AtEOXact_SMgr (st : SMgrState) : Except String SMgrState :=
  closeList st.unowned_relns st

/-- Read the cached block count of one fork (`reln->smgr_cached_nblocks[forknum]`). -/
def getCached (r : SMgrRelationData) (forknum : Nat) : Nat :=
  r.smgr_cached_nblocks.getD forknum InvalidBlockNumber

/-- Store into the cached block count of one fork. -/
def setCached (r : SMgrRelationData) (forknum v : Nat) : SMgrRelationData :=
  { r with smgr_cached_nblocks := r.smgr_cached_nblocks.set forknum v }

/-- The cache update at the end of `smgrextend` (smgr.c:503-519), after the
backend `smgr_extend` call succeeded: advance the cached count to
`blocknum + 1` exactly when it equalled `blocknum`; otherwise invalidate it.
The `+ 1` is 32-bit `BlockNumber` arithmetic. -/
def smgrextend (r : SMgrRelationData) (forknum blocknum : Nat) : SMgrRelationData :=
  if getCached r forknum = blocknum then
    setCached r forknum ((blocknum + 1) % 2 ^ 32)
  else
    setCached r forknum InvalidBlockNumber

/-- `smgrnblocks_cached(reln, forknum)` (smgr.c:613-624): the cached value is
only ever trusted `InRecovery`; otherwise `InvalidBlockNumber`.  The global
`InRecovery` flag is passed explicitly. -/
def smgrnblocks_cached (inRecovery : Bool) (r : SMgrRelationData) (forknum : Nat) : Nat :=
  if inRecovery = true ∧ getCached r forknum ≠ InvalidBlockNumber then
    getCached r forknum
  else
    InvalidBlockNumber

/-- `smgrnblocks(reln, forknum)` (smgr.c:589-604).  `backendAnswer` is the
value the backend `smgr_nblocks` call would return; the third component
records whether that backend query happened. -/
def smgrnblocks (inRecovery : Bool) (backendAnswer : Nat) (r : SMgrRelationData)
    (forknum : Nat) : Nat × SMgrRelationData × Bool :=
  let result := smgrnblocks_cached inRecovery r forknum
  if result ≠ InvalidBlockNumber then (result, r, false)
  else (backendAnswer, setCached r forknum backendAnswer, true)

/-- The per-fork loop of `smgrtruncate` (smgr.c:659-675): for each
`(forknum, nblocks)` pair, first store `InvalidBlockNumber` into the cache,
then call the backend `smgr_truncate` — `fails fk nb = true` models that call
raising `elog(ERROR)`, which aborts the operation with the state as it stands
— and, only after it returns, store the new count. -/
def smgrtruncateLoop (fails : Nat → Nat → Bool) :
    SMgrRelationData → List (Nat × Nat) → Except SMgrRelationData SMgrRelationData
  | r, [] => Except.ok r
  | r, (fk, nb) :: rest =>
      let r1 := setCached r fk InvalidBlockNumber
      if fails fk nb then Except.error r1
      else smgrtruncateLoop fails (setCached r1 fk nb) rest

/-- The entry state after `smgrtruncate`'s loop, whether it ran to completion
or was aborted by a backend failure. -/
def truncateResult (fails : Nat → Nat → Bool) (r : SMgrRelationData)
    (pairs : List (Nat × Nat)) : SMgrRelationData :=
  match smgrtruncateLoop fails r pairs with
  | Except.ok r' => r'
  | Except.error r' => r'

/-- `smgrextend` acting on the registry entry of `id`. -/
def smgrextendS (st : SMgrState) (id : RelFileNodeBackend) (forknum blocknum : Nat) :
    SMgrState :=
  { st with relns := updateReln id (fun r => smgrextend r forknum blocknum) st.relns }

/-- `smgrnblocks` acting on the registry entry of `id`. -/
def smgrnblocksS (st : SMgrState) (inRecovery : Bool) (backendAnswer : Nat)
    (id : RelFileNodeBackend) (forknum : Nat) : SMgrState :=
  { st with relns :=
      updateReln id (fun r => (smgrnblocks inRecovery backendAnswer r forknum).2.1) st.relns }

/-- `smgrtruncate`'s loop acting on the registry entry of `id` (including the
state left behind by a mid-loop backend failure). -/
def smgrtruncateS (st : SMgrState) (id : RelFileNodeBackend) (fails : Nat → Nat → Bool)
    (pairs : List (Nat × Nat)) : SMgrState :=
  { st with relns := updateReln id (fun r => truncateResult fails r pairs) st.relns }

/-- The externally visible calls made by `smgrdounlinkall`, in order. -/
inductive UnlinkEvent where
  | dropAllBuffers : List RelFileNodeBackend → UnlinkEvent
  | closeFork : RelFileNodeBackend → Nat → UnlinkEvent
  | invalBroadcast : RelFileNodeBackend → UnlinkEvent
  | physicalUnlink : RelFileNodeBackend → Nat → Bool → UnlinkEvent
deriving DecidableEq

/-- Phase of an event in `smgrdounlinkall`: buffer drop, smgr-level close,
shared-inval broadcast, physical unlink. -/
def unlinkPhase : UnlinkEvent → Nat
  | UnlinkEvent.dropAllBuffers _ => 0
  | UnlinkEvent.closeFork _ _ => 1
  | UnlinkEvent.invalBroadcast _ => 2
  | UnlinkEvent.physicalUnlink _ _ _ => 3

/-- The fork numbers `0 .. MAX_FORKNUM` iterated by the C `for` loops. -/
def forkList : List Nat := List.range NFORKS

/-- The trace of external calls of `smgrdounlinkall(rels, nrels, isRedo)`
(smgr.c:433-491): nothing if `nrels == 0`; otherwise
`DropRelFileNodesAllBuffers` for all of them, then per relation a
`smgr_close` of every fork, then `CacheInvalidateSmgr` per relation, then
`smgr_unlink` of every fork of every relation (which treats deletion failure
as a WARNING; `isRedo` tolerates already-absent files). -/
def smgrdounlinkall (rels : List RelFileNodeBackend) (isRedo : Bool) : List UnlinkEvent :=
  if rels.length = 0 then []
  else
    UnlinkEvent.dropAllBuffers rels ::
      ((rels.flatMap fun r => forkList.map fun fk => UnlinkEvent.closeFork r fk) ++
       (rels.map fun r => UnlinkEvent.invalBroadcast r) ++
       (rels.flatMap fun r => forkList.map fun fk => UnlinkEvent.physicalUnlink r fk isRedo))

/-- Structural invariant of the registry state: unique keys; an entry is on
the unowned list exactly when it has no owner; the unowned list has no
duplicates and only holds live keys; every owner slot that references an
entry is the owner recorded in that entry's back reference; slot numbers are
unique; cache arrays have length `NFORKS`; and before hash-table
initialization the registry is empty. -/
def RegistryInv (st : SMgrState) : Prop :=
  (relnKeys st.relns).Nodup ∧
  (∀ r ∈ st.relns, (r.smgr_owner = none ↔ r.smgr_rnode ∈ st.unowned_relns)) ∧
  st.unowned_relns.Nodup ∧
  (∀ x ∈ st.unowned_relns, x ∈ relnKeys st.relns) ∧
  (∀ p ∈ st.owners, ∃ r ∈ st.relns, r.smgr_rnode = p.2 ∧ r.smgr_owner = some p.1) ∧
  (st.owners.map Prod.fst).Nodup ∧
  (∀ r ∈ st.relns, r.smgr_cached_nblocks.length = NFORKS) ∧
  (st.hashInitialized = false → st.relns = [] ∧ st.unowned_relns = [])

instance (st : SMgrState) : Decidable (RegistryInv st) := by
  unfold RegistryInv; infer_instance

/-- No entry is simultaneously referenced by an owner slot and a member of
the unowned list. -/
def NotBothOwnedAndUnowned (st : SMgrState) : Prop :=
  ∀ p ∈ st.owners, p.2 ∉ st.unowned_relns

instance (st : SMgrState) : Decidable (NotBothOwnedAndUnowned st) := by
  unfold NotBothOwnedAndUnowned; infer_instance

/-- The states observable between calls into `smgr.c`: everything obtainable
from the initial state by the modelled operations (including the state left
behind when a backend `smgr_truncate` call fails mid-loop, since `elog(ERROR)`
aborts the transaction but the process continues from that state). -/
inductive Reachable : SMgrState → Prop where
  | init : Reachable initialState
  | open_ok (st st' : SMgrState) (rnode : RelFileNode) (backend : Int) (p : Nat)
      (id : RelFileNodeBackend) : Reachable st →
      smgropen st rnode backend p = Except.ok (st', id) → Reachable st'
  | set_owner (st : SMgrState) (s : Nat) (id : RelFileNodeBackend) :
      Reachable st → Reachable (smgrsetowner st s id)
  | clear_owner (st : SMgrState) (s : Nat) (id : RelFileNodeBackend) :
      Reachable st → Reachable (smgrclearowner st s id)
  | close_ok (st st' : SMgrState) (id : RelFileNodeBackend) :
      Reachable st → smgrclose st id = Except.ok st' → Reachable st'
  | eoxact_ok (st st' : SMgrState) :
      Reachable st → AtEOXact_SMgr st = Except.ok st' → Reachable st'
  | extend_step (st : SMgrState) (id : RelFileNodeBackend) (fk n : Nat) :
      Reachable st → Reachable (smgrextendS st id fk n)
  | nblocks_step (st : SMgrState) (rec : Bool) (ans : Nat) (id : RelFileNodeBackend)
      (fk : Nat) : Reachable st → Reachable (smgrnblocksS st rec ans id fk)
  | truncate_step (st : SMgrState) (id : RelFileNodeBackend) (fails : Nat → Nat → Bool)
      (pairs : List (Nat × Nat)) : Reachable st → Reachable (smgrtruncateS st id fails pairs)

/-! ### Helper lemmas about the list primitives -/

@[simp] theorem relnKeys_nil : relnKeys [] = [] := rfl

@[simp] theorem relnKeys_cons {a : SMgrRelationData} {as : List SMgrRelationData} :
    relnKeys (a :: as) = a.smgr_rnode :: relnKeys as := rfl

theorem mem_relnKeys {l : List SMgrRelationData} {k : RelFileNodeBackend} :
    k ∈ relnKeys l ↔ ∃ r ∈ l, r.smgr_rnode = k := by
  simp [relnKeys]

theorem lookupReln_some {l : List SMgrRelationData} {id : RelFileNodeBackend}
    {r : SMgrRelationData} (h : lookupReln l id = some r) :
    r ∈ l ∧ r.smgr_rnode = id := by
  induction l with
  | nil => simp [lookupReln] at h
  | cons a as ih =>
      by_cases ha : a.smgr_rnode = id
      · simp [lookupReln, ha] at h
        exact ⟨by simp [← h], by rw [← h]; exact ha⟩
      · simp [lookupReln, ha] at h
        rcases ih h with ⟨hm, hk⟩
        exact ⟨List.mem_cons_of_mem _ hm, hk⟩

theorem lookupReln_eq_none {l : List SMgrRelationData} {id : RelFileNodeBackend} :
    lookupReln l id = none ↔ id ∉ relnKeys l := by
  induction l with
  | nil => simp [lookupReln, relnKeys]
  | cons a as ih =>
      by_cases ha : a.smgr_rnode = id
      · simp [lookupReln, ha, relnKeys]
      · simp [lookupReln, ha, relnKeys] at ih ⊢
        exact ⟨fun h => ⟨fun e => ha e.symm, ih.1 h⟩, fun h => ih.2 h.2⟩

theorem lookupReln_isSome_of_mem {l : List SMgrRelationData} {id : RelFileNodeBackend}
    (h : id ∈ relnKeys l) : ∃ r, lookupReln l id = some r := by
  cases hl : lookupReln l id with
  | none => exact absurd h (lookupReln_eq_none.mp hl)
  | some r => exact ⟨r, rfl⟩

theorem lookupReln_append_of_none {l1 l2 : List SMgrRelationData} {id : RelFileNodeBackend}
    (h : lookupReln l1 id = none) : lookupReln (l1 ++ l2) id = lookupReln l2 id := by
  induction l1 with
  | nil => simp
  | cons a as ih =>
      by_cases ha : a.smgr_rnode = id
      · simp [lookupReln, ha] at h
      · simp [lookupReln, ha] at h ⊢
        exact ih h

theorem relnKeys_updateReln {id : RelFileNodeBackend} {f : SMgrRelationData → SMgrRelationData}
    (hf : ∀ r, (f r).smgr_rnode = r.smgr_rnode) (l : List SMgrRelationData) :
    relnKeys (updateReln id f l) = relnKeys l := by
  induction l with
  | nil => rfl
  | cons a as ih =>
      by_cases ha : a.smgr_rnode = id
      · simp [updateReln, ha, relnKeys, hf]
      · simp [updateReln, ha, relnKeys] at ih ⊢
        exact ih

theorem lookupReln_updateReln_self {id : RelFileNodeBackend}
    {f : SMgrRelationData → SMgrRelationData}
    (hf : ∀ r, (f r).smgr_rnode = r.smgr_rnode) (l : List SMgrRelationData) :
    lookupReln (updateReln id f l) id = (lookupReln l id).map f := by
  induction l with
  | nil => rfl
  | cons a as ih =>
      by_cases ha : a.smgr_rnode = id
      · simp [updateReln, ha, lookupReln, hf]
      · simp [updateReln, ha, lookupReln]
        exact ih

theorem lookupReln_updateReln_ne {id id' : RelFileNodeBackend}
    {f : SMgrRelationData → SMgrRelationData}
    (hf : ∀ r, (f r).smgr_rnode = r.smgr_rnode) (hne : id' ≠ id) (l : List SMgrRelationData) :
    lookupReln (updateReln id f l) id' = lookupReln l id' := by
  induction l with
  | nil => rfl
  | cons a as ih =>
      by_cases ha : a.smgr_rnode = id
      · have h1 : ¬((f a).smgr_rnode = id') := by
          rw [hf a, ha]; exact fun e => hne e.symm
        have h2 : ¬(a.smgr_rnode = id') := by
          rw [ha]; exact fun e => hne e.symm
        simp only [updateReln, lookupReln, if_pos ha, if_neg h1, if_neg h2]
      · by_cases ha' : a.smgr_rnode = id'
        · simp only [updateReln, lookupReln, if_neg ha, if_pos ha']
        · simp only [updateReln, lookupReln, if_neg ha, if_neg ha']
          exact ih

theorem mem_updateReln {id : RelFileNodeBackend} {f : SMgrRelationData → SMgrRelationData}
    {l : List SMgrRelationData} {r' : SMgrRelationData} (h : r' ∈ updateReln id f l) :
    r' ∈ l ∨ ∃ r ∈ l, r.smgr_rnode = id ∧ r' = f r := by
  induction l with
  | nil => simp [updateReln] at h
  | cons a as ih =>
      by_cases ha : a.smgr_rnode = id
      · simp [updateReln, ha] at h
        rcases h with h | h
        · exact Or.inr ⟨a, List.mem_cons_self a as, ha, h⟩
        · exact Or.inl (List.mem_cons_of_mem _ h)
      · simp [updateReln, ha] at h
        rcases h with h | h
        · exact Or.inl (by simp [h])
        · rcases ih h with h' | ⟨r, hr, hk, he⟩
          · exact Or.inl (List.mem_cons_of_mem _ h')
          · exact Or.inr ⟨r, List.mem_cons_of_mem _ hr, hk, he⟩

theorem mem_updateReln_of_ne {id : RelFileNodeBackend} {f : SMgrRelationData → SMgrRelationData}
    {l : List SMgrRelationData} {r : SMgrRelationData} (h : r ∈ l)
    (hne : r.smgr_rnode ≠ id) : r ∈ updateReln id f l := by
  induction l with
  | nil => simp at h
  | cons a as ih =>
      rcases List.mem_cons.mp h with h | h
      · subst h
        simp [updateReln, hne]
      · by_cases ha : a.smgr_rnode = id
        · simp [updateReln, ha]
          exact Or.inr h
        · simp [updateReln, ha]
          exact Or.inr (ih h)

theorem exists_mem_updateReln {i : RelFileNodeBackend} {f : SMgrRelationData → SMgrRelationData}
    {l : List SMgrRelationData} {r : SMgrRelationData}
    (hf : ∀ r, (f r).smgr_rnode = r.smgr_rnode)
    (hg : ∀ r, (f r).smgr_owner = r.smgr_owner) (h : r ∈ l) :
    ∃ r' ∈ updateReln i f l, r'.smgr_rnode = r.smgr_rnode ∧ r'.smgr_owner = r.smgr_owner := by
  induction l with
  | nil => simp at h
  | cons a as ih =>
      by_cases ha : a.smgr_rnode = i
      · rcases List.mem_cons.mp h with h | h
        · exact ⟨f a, by simp [updateReln, ha], by rw [hf a, h], by rw [hg a, h]⟩
        · exact ⟨r, by simp only [updateReln, if_pos ha]; exact List.mem_cons_of_mem _ h,
            rfl, rfl⟩
      · rcases List.mem_cons.mp h with h | h
        · exact ⟨a, by simp only [updateReln, if_neg ha]; exact List.mem_cons_self a _,
            by rw [h], by rw [h]⟩
        · rcases ih h with ⟨r', hr', hk, ho⟩
          exact ⟨r', by simp only [updateReln, if_neg ha]; exact List.mem_cons_of_mem _ hr',
            hk, ho⟩

theorem mem_removeReln {l : List SMgrRelationData} {id : RelFileNodeBackend}
    {r : SMgrRelationData} : r ∈ removeReln l id ↔ r ∈ l ∧ r.smgr_rnode ≠ id := by
  induction l with
  | nil => simp [removeReln]
  | cons a as ih =>
      by_cases ha : a.smgr_rnode = id
      · rw [show removeReln (a :: as) id = removeReln as id by
          simp only [removeReln, if_pos ha], ih, List.mem_cons]
        constructor
        · rintro ⟨h1, h2⟩
          exact ⟨Or.inr h1, h2⟩
        · rintro ⟨h1 | h1, h2⟩
          · exact absurd (by rw [h1]; exact ha) h2
          · exact ⟨h1, h2⟩
      · rw [show removeReln (a :: as) id = a :: removeReln as id by
          simp only [removeReln, if_neg ha], List.mem_cons, ih, List.mem_cons]
        constructor
        · rintro (h | ⟨h1, h2⟩)
          · exact ⟨Or.inl h, by rw [h]; exact ha⟩
          · exact ⟨Or.inr h1, h2⟩
        · rintro ⟨h1 | h1, h2⟩
          · exact Or.inl h1
          · exact Or.inr ⟨h1, h2⟩

theorem mem_relnKeys_removeReln {l : List SMgrRelationData} {id k : RelFileNodeBackend}
    (h : k ∈ relnKeys (removeReln l id)) : k ∈ relnKeys l ∧ k ≠ id := by
  rcases mem_relnKeys.mp h with ⟨r, hr, hk⟩
  rcases mem_removeReln.mp hr with ⟨hl, hne⟩
  exact ⟨mem_relnKeys.mpr ⟨r, hl, hk⟩, by rw [← hk]; exact hne⟩

theorem nodup_relnKeys_removeReln {l : List SMgrRelationData} {id : RelFileNodeBackend}
    (h : (relnKeys l).Nodup) : (relnKeys (removeReln l id)).Nodup := by
  induction l with
  | nil => simp [removeReln]
  | cons a as ih =>
      rw [relnKeys_cons, List.nodup_cons] at h
      by_cases ha : a.smgr_rnode = id
      · rw [show removeReln (a :: as) id = removeReln as id by
          simp only [removeReln, if_pos ha]]
        exact ih h.2
      · rw [show removeReln (a :: as) id = a :: removeReln as id by
          simp only [removeReln, if_neg ha], relnKeys_cons, List.nodup_cons]
        refine ⟨fun hk => ?_, ih h.2⟩
        exact h.1 (mem_relnKeys_removeReln hk).1

theorem mem_eraseId_of_ne {l : List RelFileNodeBackend} {x a : RelFileNodeBackend}
    (hne : x ≠ a) : x ∈ eraseId l a ↔ x ∈ l := by
  induction l with
  | nil => simp [eraseId]
  | cons b bs ih =>
      by_cases hb : b = a
      · subst hb
        simp [eraseId, hne]
      · simp [eraseId, hb, ih]

theorem eraseId_subset {l : List RelFileNodeBackend} {x a : RelFileNodeBackend}
    (h : x ∈ eraseId l a) : x ∈ l := by
  induction l with
  | nil => simp [eraseId] at h
  | cons b bs ih =>
      by_cases hb : b = a
      · subst hb
        simp [eraseId] at h
        exact List.mem_cons_of_mem _ h
      · simp [eraseId, hb] at h
        rcases h with h | h
        · simp [h]
        · exact List.mem_cons_of_mem _ (ih h)

theorem not_mem_eraseId {l : List RelFileNodeBackend} {a : RelFileNodeBackend}
    (hn : l.Nodup) : a ∉ eraseId l a := by
  induction l with
  | nil => simp [eraseId]
  | cons b bs ih =>
      simp at hn
      by_cases hb : b = a
      · subst hb
        simp [eraseId]
        intro h
        exact hn.1 h
      · simp [eraseId, hb]
        exact ⟨fun e => hb e.symm, ih hn.2⟩

theorem nodup_eraseId {l : List RelFileNodeBackend} {a : RelFileNodeBackend}
    (hn : l.Nodup) : (eraseId l a).Nodup := by
  induction l with
  | nil => simp [eraseId]
  | cons b bs ih =>
      simp at hn
      by_cases hb : b = a
      · subst hb
        simp [eraseId]
        exact hn.2
      · simp [eraseId, hb]
        exact ⟨fun h => hn.1 (eraseId_subset h), ih hn.2⟩

theorem mem_removeSlot {l : List (Nat × RelFileNodeBackend)} {s : Nat}
    {p : Nat × RelFileNodeBackend} : p ∈ removeSlot l s ↔ p ∈ l ∧ p.1 ≠ s := by
  induction l with
  | nil => simp [removeSlot]
  | cons q qs ih =>
      by_cases hq : q.1 = s
      · rw [show removeSlot (q :: qs) s = removeSlot qs s by
          simp only [removeSlot, if_pos hq], ih, List.mem_cons]
        constructor
        · rintro ⟨h1, h2⟩
          exact ⟨Or.inr h1, h2⟩
        · rintro ⟨h1 | h1, h2⟩
          · exact absurd (by rw [h1]; exact hq) h2
          · exact ⟨h1, h2⟩
      · rw [show removeSlot (q :: qs) s = q :: removeSlot qs s by
          simp only [removeSlot, if_neg hq], List.mem_cons, ih, List.mem_cons]
        constructor
        · rintro (h | ⟨h1, h2⟩)
          · exact ⟨Or.inl h, by rw [h]; exact hq⟩
          · exact ⟨Or.inr h1, h2⟩
        · rintro ⟨h1 | h1, h2⟩
          · exact Or.inl h1
          · exact Or.inr ⟨h1, h2⟩

theorem slotGet_removeSlot_self {l : List (Nat × RelFileNodeBackend)} {s : Nat} :
    slotGet (removeSlot l s) s = none := by
  induction l with
  | nil => simp [removeSlot, slotGet]
  | cons q qs ih =>
      by_cases hq : q.1 = s
      · simpa only [removeSlot, if_pos hq] using ih
      · rw [show removeSlot (q :: qs) s = q :: removeSlot qs s by
          simp only [removeSlot, if_neg hq]]
        simp only [slotGet, if_neg hq]
        exact ih

theorem slotGet_removeSlot_ne {l : List (Nat × RelFileNodeBackend)} {s t : Nat}
    (h : t ≠ s) : slotGet (removeSlot l s) t = slotGet l t := by
  induction l with
  | nil => rfl
  | cons q qs ih =>
      by_cases hq : q.1 = s
      · have hq' : ¬(q.1 = t) := by rw [hq]; exact fun e => h e.symm
        rw [show removeSlot (q :: qs) s = removeSlot qs s by
          simp only [removeSlot, if_pos hq]]
        simp only [slotGet, if_neg hq']
        exact ih
      · by_cases hq' : q.1 = t
        · rw [show removeSlot (q :: qs) s = q :: removeSlot qs s by
            simp only [removeSlot, if_neg hq]]
          simp only [slotGet, if_pos hq']
        · rw [show removeSlot (q :: qs) s = q :: removeSlot qs s by
            simp only [removeSlot, if_neg hq]]
          simp only [slotGet, if_neg hq']
          exact ih

theorem slotGet_setSlot_self {l : List (Nat × RelFileNodeBackend)} {s : Nat}
    {id : RelFileNodeBackend} : slotGet (setSlot l s id) s = some id := by
  simp [setSlot, slotGet]

theorem slotGet_setSlot_ne {l : List (Nat × RelFileNodeBackend)} {s t : Nat}
    {id : RelFileNodeBackend} (h : t ≠ s) : slotGet (setSlot l s id) t = slotGet l t := by
  have hs : ¬(s = t) := fun e => h e.symm
  simp only [setSlot, slotGet, if_neg hs]
  exact slotGet_removeSlot_ne h

theorem nodup_fst_removeSlot {l : List (Nat × RelFileNodeBackend)} {s : Nat}
    (h : (l.map Prod.fst).Nodup) : ((removeSlot l s).map Prod.fst).Nodup := by
  induction l with
  | nil => simp [removeSlot]
  | cons q qs ih =>
      rw [List.map_cons, List.nodup_cons] at h
      by_cases hq : q.1 = s
      · rw [show removeSlot (q :: qs) s = removeSlot qs s by
          simp only [removeSlot, if_pos hq]]
        exact ih h.2
      · rw [show removeSlot (q :: qs) s = q :: removeSlot qs s by
          simp only [removeSlot, if_neg hq], List.map_cons, List.nodup_cons]
        refine ⟨fun hk => ?_, ih h.2⟩
        rcases List.mem_map.mp hk with ⟨p, hp, he⟩
        exact h.1 (List.mem_map.mpr ⟨p, (mem_removeSlot.mp hp).1, he⟩)

theorem nodup_fst_setSlot {l : List (Nat × RelFileNodeBackend)} {s : Nat}
    {id : RelFileNodeBackend} (h : (l.map Prod.fst).Nodup) :
    ((setSlot l s id).map Prod.fst).Nodup := by
  rw [setSlot, List.map_cons, List.nodup_cons]
  refine ⟨fun hk => ?_, nodup_fst_removeSlot h⟩
  rcases List.mem_map.mp hk with ⟨p, hp, he⟩
  exact (mem_removeSlot.mp hp).2 he

theorem getD_set_self {l : List Nat} {i v d : Nat} (h : i < l.length) :
    (l.set i v).getD i d = v := by
  induction l generalizing i with
  | nil => simp at h
  | cons a as ih =>
      cases i with
      | zero => simp
      | succ n => simpa using ih (by simpa using h)

theorem getD_set_ne {l : List Nat} {i j v d : Nat} (hij : i ≠ j) :
    (l.set i v).getD j d = l.getD j d := by
  induction l generalizing i j with
  | nil => simp
  | cons a as ih =>
      cases i with
      | zero =>
          cases j with
          | zero => exact absurd rfl hij
          | succ m => simp
      | succ n =>
          cases j with
          | zero => simp
          | succ m => simpa using ih (fun e => hij (by rw [e]))

@[simp] theorem setCached_rnode {r : SMgrRelationData} {fk v : Nat} :
    (setCached r fk v).smgr_rnode = r.smgr_rnode := rfl

@[simp] theorem setCached_owner {r : SMgrRelationData} {fk v : Nat} :
    (setCached r fk v).smgr_owner = r.smgr_owner := rfl

@[simp] theorem setCached_length {r : SMgrRelationData} {fk v : Nat} :
    (setCached r fk v).smgr_cached_nblocks.length = r.smgr_cached_nblocks.length := by
  simp [setCached]

theorem getCached_setCached_self {r : SMgrRelationData} {fk v : Nat}
    (h : fk < r.smgr_cached_nblocks.length) : getCached (setCached r fk v) fk = v := by
  simp only [getCached, setCached]
  exact getD_set_self h

theorem getCached_setCached_ne {r : SMgrRelationData} {fk fk' v : Nat} (h : fk ≠ fk') :
    getCached (setCached r fk v) fk' = getCached r fk' := by
  simp only [getCached, setCached]
  exact getD_set_ne h

theorem eq_of_mem_of_nodup_keys {l : List SMgrRelationData} (h : (relnKeys l).Nodup)
    {a b : SMgrRelationData} (ha : a ∈ l) (hb : b ∈ l)
    (hk : a.smgr_rnode = b.smgr_rnode) : a = b := by
  induction l with
  | nil => simp at ha
  | cons c cs ih =>
      rw [relnKeys_cons, List.nodup_cons] at h
      rcases List.mem_cons.mp ha with ha' | ha'
      · rcases List.mem_cons.mp hb with hb' | hb'
        · rw [ha', hb']
        · exfalso
          apply h.1
          rw [ha'] at hk
          exact mem_relnKeys.mpr ⟨b, hb', hk.symm⟩
      · rcases List.mem_cons.mp hb with hb' | hb'
        · exfalso
          apply h.1
          rw [hb'] at hk
          exact mem_relnKeys.mpr ⟨a, ha', hk⟩
        · exact ih h.2 ha' hb'

theorem mem_updateReln_nodup {l : List SMgrRelationData} {id : RelFileNodeBackend}
    {f : SMgrRelationData → SMgrRelationData} {r' : SMgrRelationData}
    (h1 : (relnKeys l).Nodup) (h : r' ∈ updateReln id f l) :
    (r'.smgr_rnode ≠ id ∧ r' ∈ l) ∨ (∃ r0 ∈ l, r0.smgr_rnode = id ∧ r' = f r0) := by
  induction l with
  | nil => simp [updateReln] at h
  | cons a as ih =>
      rw [relnKeys_cons, List.nodup_cons] at h1
      by_cases ha : a.smgr_rnode = id
      · simp only [updateReln, if_pos ha] at h
        rcases List.mem_cons.mp h with h' | h'
        · exact Or.inr ⟨a, List.mem_cons_self a as, ha, h'⟩
        · refine Or.inl ⟨fun he => ?_, List.mem_cons_of_mem _ h'⟩
          apply h1.1
          rw [← ha] at he
          exact mem_relnKeys.mpr ⟨r', h', he⟩
      · simp only [updateReln, if_neg ha] at h
        rcases List.mem_cons.mp h with h' | h'
        · exact Or.inl ⟨by rw [h']; exact ha, by rw [h']; exact List.mem_cons_self a as⟩
        · rcases ih h1.2 h' with ⟨hne, hm⟩ | ⟨r0, hm, hk, he⟩
          · exact Or.inl ⟨hne, List.mem_cons_of_mem _ hm⟩
          · exact Or.inr ⟨r0, List.mem_cons_of_mem _ hm, hk, he⟩

/-- Updates that keep the key, the owner back reference and the cache length
(persistence reconciliation and all block-count cache updates) preserve the
registry invariant. -/
theorem registryInv_updateReln {st : SMgrState} {id : RelFileNodeBackend}
    {f : SMgrRelationData → SMgrRelationData}
    (hf : ∀ r, (f r).smgr_rnode = r.smgr_rnode)
    (hg : ∀ r, (f r).smgr_owner = r.smgr_owner)
    (hl : ∀ r, (f r).smgr_cached_nblocks.length = r.smgr_cached_nblocks.length)
    (h : RegistryInv st) : RegistryInv { st with relns := updateReln id f st.relns } := by
  obtain ⟨h1, h2, h3, h4, h5, h6, h7, h8⟩ := h
  refine ⟨?_, ?_, h3, ?_, ?_, h6, ?_, ?_⟩
  · rw [relnKeys_updateReln hf]
    exact h1
  · intro r hr
    rcases mem_updateReln hr with hm | ⟨r0, hm, _, he⟩
    · exact h2 r hm
    · rw [he, hg r0, hf r0]
      exact h2 r0 hm
  · intro x hx
    rw [relnKeys_updateReln hf]
    exact h4 x hx
  · intro p hp
    rcases h5 p hp with ⟨r, hr, hk, ho⟩
    rcases exists_mem_updateReln (i := id) hf hg hr with ⟨r', hr', hk', ho'⟩
    exact ⟨r', hr', by rw [hk']; exact hk, by rw [ho']; exact ho⟩
  · intro r hr
    rcases mem_updateReln hr with hm | ⟨r0, hm, _, he⟩
    · exact h7 r hm
    · rw [he, hl r0]
      exact h7 r0 hm
  · intro hfi
    rcases h8 hfi with ⟨hrel, hun⟩
    exact ⟨by rw [hrel]; rfl, hun⟩

/-! ### Branch characterizations of the ownership operations -/

theorem smgrsetowner_of_lookup_none {st : SMgrState} {s : Nat} {id : RelFileNodeBackend}
    (hlk : lookupReln st.relns id = none) : smgrsetowner st s id = st := by
  simp [smgrsetowner, hlk]

theorem smgrsetowner_of_owner_some {st : SMgrState} {s old : Nat} {id : RelFileNodeBackend}
    {reln : SMgrRelationData} (hlk : lookupReln st.relns id = some reln)
    (hown : reln.smgr_owner = some old) :
    smgrsetowner st s id =
      { st with
        relns := updateReln id (fun r => { r with smgr_owner := some s }) st.relns
        owners := setSlot (removeSlot st.owners old) s id } := by
  simp [smgrsetowner, hlk, hown]

theorem smgrsetowner_of_owner_none {st : SMgrState} {s : Nat} {id : RelFileNodeBackend}
    {reln : SMgrRelationData} (hlk : lookupReln st.relns id = some reln)
    (hown : reln.smgr_owner = none) :
    smgrsetowner st s id =
      { st with
        relns := updateReln id (fun r => { r with smgr_owner := some s }) st.relns
        unowned_relns := eraseId st.unowned_relns id
        owners := setSlot st.owners s id } := by
  simp [smgrsetowner, hlk, hown]

theorem smgrclearowner_of_lookup_none {st : SMgrState} {s : Nat} {id : RelFileNodeBackend}
    (hlk : lookupReln st.relns id = none) : smgrclearowner st s id = st := by
  simp [smgrclearowner, hlk]

theorem smgrclearowner_of_not_owner {st : SMgrState} {s : Nat} {id : RelFileNodeBackend}
    {reln : SMgrRelationData} (hlk : lookupReln st.relns id = some reln)
    (hown : reln.smgr_owner ≠ some s) : smgrclearowner st s id = st := by
  simp [smgrclearowner, hlk, hown]

theorem smgrclearowner_of_owner {st : SMgrState} {s : Nat} {id : RelFileNodeBackend}
    {reln : SMgrRelationData} (hlk : lookupReln st.relns id = some reln)
    (hown : reln.smgr_owner = some s) :
    smgrclearowner st s id =
      { st with
        owners := removeSlot st.owners s
        relns := updateReln id (fun r => { r with smgr_owner := none }) st.relns
        unowned_relns := st.unowned_relns ++ [id] } := by
  simp [smgrclearowner, hlk, hown]

theorem smgrclose_of_lookup_none {st : SMgrState} {id : RelFileNodeBackend}
    (hlk : lookupReln st.relns id = none) :
    smgrclose st id = Except.error "SMgrRelation hashtable corrupted" := by
  simp [smgrclose, hlk]

theorem smgrclose_of_owner_none {st : SMgrState} {id : RelFileNodeBackend}
    {reln : SMgrRelationData} (hlk : lookupReln st.relns id = some reln)
    (hown : reln.smgr_owner = none) :
    smgrclose st id = Except.ok
      { st with
        relns := removeReln st.relns id
        unowned_relns := eraseId st.unowned_relns id } := by
  simp [smgrclose, hlk, hown]

theorem smgrclose_of_owner_some {st : SMgrState} {id : RelFileNodeBackend} {s : Nat}
    {reln : SMgrRelationData} (hlk : lookupReln st.relns id = some reln)
    (hown : reln.smgr_owner = some s) :
    smgrclose st id = Except.ok
      { st with
        relns := removeReln st.relns id
        owners := removeSlot st.owners s } := by
  simp [smgrclose, hlk, hown]

/-! ### Preservation of the registry invariant -/


theorem registryInv_smgrsetowner {st : SMgrState} {s : Nat} {id : RelFileNodeBackend}
    (h : RegistryInv st) : RegistryInv (smgrsetowner st s id) := by
  cases hlk : lookupReln st.relns id with
  | none => rw [smgrsetowner_of_lookup_none hlk]; exact h
  | some reln =>
      obtain ⟨hmem, hkey⟩ := lookupReln_some hlk
      obtain ⟨h1, h2, h3, h4, h5, h6, h7, h8⟩ := h
      have hfi : st.hashInitialized = true := by
        by_contra hc
        rw [Bool.not_eq_true] at hc
        rw [(h8 hc).1] at hlk
        simp [lookupReln] at hlk
      have hupd : lookupReln
          (updateReln id (fun r => { r with smgr_owner := some s }) st.relns) id =
          some { reln with smgr_owner := some s } := by
        rw [lookupReln_updateReln_self (f := fun r => { r with smgr_owner := some s })
          (fun r => rfl), hlk]
        rfl
      have hkeys : relnKeys (updateReln id
          (fun r => { r with smgr_owner := some s }) st.relns) = relnKeys st.relns :=
        relnKeys_updateReln (f := fun r => { r with smgr_owner := some s })
          (fun r => rfl) st.relns
      cases hown : reln.smgr_owner with
      | some old =>
          rw [smgrsetowner_of_owner_some hlk hown]
          have hidnotun : id ∉ st.unowned_relns := by
            intro hin
            rw [(h2 reln hmem).mpr (by rw [hkey]; exact hin)] at hown
            exact Option.noConfusion hown
          unfold RegistryInv
          dsimp only
          refine ⟨?_, ?_, h3, ?_, ?_, ?_, ?_, ?_⟩
          · rw [hkeys]
            exact h1
          · intro r hr
            rcases mem_updateReln_nodup h1 hr with ⟨hne, hm⟩ | ⟨r0, hm, hk0, he⟩
            · exact h2 r hm
            · rw [he]
              refine iff_of_false (by simp) ?_
              show r0.smgr_rnode ∉ st.unowned_relns
              rw [hk0]
              exact hidnotun
          · intro x hx
            rw [hkeys]
            exact h4 x hx
          · intro p hp
            rcases List.mem_cons.mp hp with hp' | hp'
            · refine ⟨{ reln with smgr_owner := some s }, (lookupReln_some hupd).1, ?_, ?_⟩
              · rw [hp']
                exact hkey
              · rw [hp']
            · have hp1 := mem_removeSlot.mp hp'
              have hp2 := mem_removeSlot.mp hp1.1
              rcases h5 p hp2.1 with ⟨r, hr, hk, ho⟩
              have hrne : r.smgr_rnode ≠ id := by
                intro he
                have hre : r = reln := eq_of_mem_of_nodup_keys h1 hr hmem (by rw [he, hkey])
                rw [hre, hown] at ho
                exact hp2.2 (Option.some_inj.mp ho.symm)
              exact ⟨r, mem_updateReln_of_ne hr hrne, hk, ho⟩
          · refine List.nodup_cons.mpr ⟨?_, nodup_fst_removeSlot (nodup_fst_removeSlot h6)⟩
            intro hin
            rcases List.mem_map.mp hin with ⟨p, hp, he⟩
            exact (mem_removeSlot.mp hp).2 he
          · intro r hr
            rcases mem_updateReln hr with hm | ⟨r0, hm, _, he⟩
            · exact h7 r hm
            · rw [he]
              exact h7 r0 hm
          · intro hc
            rw [hfi] at hc
            exact Bool.noConfusion hc
      | none =>
          rw [smgrsetowner_of_owner_none hlk hown]
          unfold RegistryInv
          dsimp only
          refine ⟨?_, ?_, nodup_eraseId h3, ?_, ?_, nodup_fst_setSlot h6, ?_, ?_⟩
          · rw [hkeys]
            exact h1
          · intro r hr
            rcases mem_updateReln_nodup h1 hr with ⟨hne, hm⟩ | ⟨r0, hm, hk0, he⟩
            · rw [h2 r hm]
              exact (mem_eraseId_of_ne hne).symm
            · rw [he]
              refine iff_of_false (by simp) ?_
              show r0.smgr_rnode ∉ eraseId st.unowned_relns id
              rw [hk0]
              exact not_mem_eraseId h3
          · intro x hx
            rw [hkeys]
            exact h4 x (eraseId_subset hx)
          · intro p hp
            rcases List.mem_cons.mp hp with hp' | hp'
            · refine ⟨{ reln with smgr_owner := some s }, (lookupReln_some hupd).1, ?_, ?_⟩
              · rw [hp']
                exact hkey
              · rw [hp']
            · have hp1 := mem_removeSlot.mp hp'
              rcases h5 p hp1.1 with ⟨r, hr, hk, ho⟩
              have hrne : r.smgr_rnode ≠ id := by
                intro he
                have hre : r = reln := eq_of_mem_of_nodup_keys h1 hr hmem (by rw [he, hkey])
                rw [hre, hown] at ho
                exact Option.noConfusion ho
              exact ⟨r, mem_updateReln_of_ne hr hrne, hk, ho⟩
          · intro r hr
            rcases mem_updateReln hr with hm | ⟨r0, hm, _, he⟩
            · exact h7 r hm
            · rw [he]
              exact h7 r0 hm
          · intro hc
            rw [hfi] at hc
            exact Bool.noConfusion hc

theorem registryInv_smgrclearowner {st : SMgrState} {s : Nat} {id : RelFileNodeBackend}
    (h : RegistryInv st) : RegistryInv (smgrclearowner st s id) := by
  cases hlk : lookupReln st.relns id with
  | none => rw [smgrclearowner_of_lookup_none hlk]; exact h
  | some reln =>
      by_cases hown : reln.smgr_owner = some s
      · obtain ⟨hmem, hkey⟩ := lookupReln_some hlk
        obtain ⟨h1, h2, h3, h4, h5, h6, h7, h8⟩ := h
        have hfi : st.hashInitialized = true := by
          by_contra hc
          rw [Bool.not_eq_true] at hc
          rw [(h8 hc).1] at hlk
          simp [lookupReln] at hlk
        have hkeys : relnKeys (updateReln id
            (fun r => { r with smgr_owner := none }) st.relns) = relnKeys st.relns :=
          relnKeys_updateReln (f := fun r => { r with smgr_owner := none })
            (fun r => rfl) st.relns
        have hidnotun : id ∉ st.unowned_relns := by
          intro hin
          have hno : reln.smgr_owner = none := (h2 reln hmem).mpr (by rw [hkey]; exact hin)
          rw [hown] at hno
          exact Option.noConfusion hno
        rw [smgrclearowner_of_owner hlk hown]
        unfold RegistryInv
        dsimp only
        refine ⟨?_, ?_, ?_, ?_, ?_, nodup_fst_removeSlot h6, ?_, ?_⟩
        · rw [hkeys]
          exact h1
        · intro r hr
          rcases mem_updateReln_nodup h1 hr with ⟨hne, hm⟩ | ⟨r0, hm, hk0, he⟩
          · rw [h2 r hm]
            constructor
            · intro hin
              exact List.mem_append_left _ hin
            · intro hin
              rcases List.mem_append.mp hin with hin | hin
              · exact hin
              · exact absurd (List.mem_singleton.mp hin) hne
          · rw [he]
            refine iff_of_true rfl ?_
            show r0.smgr_rnode ∈ st.unowned_relns ++ [id]
            rw [hk0]
            exact List.mem_append_right _ (List.mem_singleton.mpr rfl)
        · refine List.nodup_append.mpr ⟨h3, List.nodup_singleton id, ?_⟩
          intro a ha hb
          rw [List.mem_singleton.mp hb] at ha
          exact hidnotun ha
        · intro x hx
          rw [hkeys]
          rcases List.mem_append.mp hx with hx | hx
          · exact h4 x hx
          · rw [List.mem_singleton.mp hx]
            exact mem_relnKeys.mpr ⟨reln, hmem, hkey⟩
        · intro p hp
          have hp1 := mem_removeSlot.mp hp
          rcases h5 p hp1.1 with ⟨r, hr, hk, ho⟩
          have hrne : r.smgr_rnode ≠ id := by
            intro he
            have hre : r = reln := eq_of_mem_of_nodup_keys h1 hr hmem (by rw [he, hkey])
            rw [hre, hown] at ho
            exact hp1.2 (Option.some_inj.mp ho.symm)
          exact ⟨r, mem_updateReln_of_ne hr hrne, hk, ho⟩
        · intro r hr
          rcases mem_updateReln hr with hm | ⟨r0, hm, _, he⟩
          · exact h7 r hm
          · rw [he]
            exact h7 r0 hm
        · intro hc
          rw [hfi] at hc
          exact Bool.noConfusion hc
      · rw [smgrclearowner_of_not_owner hlk hown]
        exact h

theorem registryInv_smgrclose {st st' : SMgrState} {id : RelFileNodeBackend}
    (h : RegistryInv st) (hok : smgrclose st id = Except.ok st') : RegistryInv st' := by
  cases hlk : lookupReln st.relns id with
  | none =>
      rw [smgrclose_of_lookup_none hlk] at hok
      exact Except.noConfusion hok
  | some reln =>
      obtain ⟨hmem, hkey⟩ := lookupReln_some hlk
      obtain ⟨h1, h2, h3, h4, h5, h6, h7, h8⟩ := h
      have hfi : st.hashInitialized = true := by
        by_contra hc
        rw [Bool.not_eq_true] at hc
        rw [(h8 hc).1] at hlk
        simp [lookupReln] at hlk
      cases hown : reln.smgr_owner with
      | none =>
          rw [smgrclose_of_owner_none hlk hown] at hok
          injection hok with hok
          subst hok
          unfold RegistryInv
          dsimp only
          refine ⟨nodup_relnKeys_removeReln h1, ?_, nodup_eraseId h3, ?_, ?_, h6, ?_, ?_⟩
          · intro r hr
            obtain ⟨hm, hne⟩ := mem_removeReln.mp hr
            rw [h2 r hm]
            exact (mem_eraseId_of_ne hne).symm
          · intro x hx
            have hxid : x ≠ id := by
              intro he
              rw [he] at hx
              exact not_mem_eraseId h3 hx
            have hxu : x ∈ st.unowned_relns := eraseId_subset hx
            rcases mem_relnKeys.mp (h4 x hxu) with ⟨r, hr, hk⟩
            refine mem_relnKeys.mpr ⟨r, mem_removeReln.mpr ⟨hr, ?_⟩, hk⟩
            rw [hk]
            exact hxid
          · intro p hp
            rcases h5 p hp with ⟨r, hr, hk, ho⟩
            have hrne : r.smgr_rnode ≠ id := by
              intro he
              have hre : r = reln := eq_of_mem_of_nodup_keys h1 hr hmem (by rw [he, hkey])
              rw [hre, hown] at ho
              exact Option.noConfusion ho
            exact ⟨r, mem_removeReln.mpr ⟨hr, hrne⟩, hk, ho⟩
          · intro r hr
            exact h7 r (mem_removeReln.mp hr).1
          · intro hc
            rw [hfi] at hc
            exact Bool.noConfusion hc
      | some sl =>
          rw [smgrclose_of_owner_some hlk hown] at hok
          injection hok with hok
          subst hok
          have hidnotun : id ∉ st.unowned_relns := by
            intro hin
            have hno : reln.smgr_owner = none := (h2 reln hmem).mpr (by rw [hkey]; exact hin)
            rw [hown] at hno
            exact Option.noConfusion hno
          unfold RegistryInv
          dsimp only
          refine ⟨nodup_relnKeys_removeReln h1, ?_, h3, ?_, ?_, nodup_fst_removeSlot h6, ?_, ?_⟩
          · intro r hr
            exact h2 r (mem_removeReln.mp hr).1
          · intro x hx
            have hxid : x ≠ id := by
              intro he
              rw [he] at hx
              exact hidnotun hx
            rcases mem_relnKeys.mp (h4 x hx) with ⟨r, hr, hk⟩
            refine mem_relnKeys.mpr ⟨r, mem_removeReln.mpr ⟨hr, ?_⟩, hk⟩
            rw [hk]
            exact hxid
          · intro p hp
            have hp1 := mem_removeSlot.mp hp
            rcases h5 p hp1.1 with ⟨r, hr, hk, ho⟩
            have hrne : r.smgr_rnode ≠ id := by
              intro he
              have hre : r = reln := eq_of_mem_of_nodup_keys h1 hr hmem (by rw [he, hkey])
              rw [hre, hown] at ho
              exact hp1.2 (Option.some_inj.mp ho.symm)
            exact ⟨r, mem_removeReln.mpr ⟨hr, hrne⟩, hk, ho⟩
          · intro r hr
            exact h7 r (mem_removeReln.mp hr).1
          · intro hc
            rw [hfi] at hc
            exact Bool.noConfusion hc

/-! ### Branch characterizations of smgropen -/

/-- The entry created by a lookup miss in `smgropen` (smgr.c:171-187). -/
def freshEntry (id : RelFileNodeBackend) (relpersistence : Nat) : SMgrRelationData :=
  { smgr_rnode := id
    smgr_owner := none
    smgr_targblock := InvalidBlockNumber
    smgr_relpersistence := relpersistence
    smgr_cached_nblocks := List.replicate NFORKS InvalidBlockNumber }

theorem smgropen_of_uninit {st : SMgrState} {rnode : RelFileNode} {backend : Int} {p : Nat}
    (hfi : st.hashInitialized = false) :
    smgropen st rnode backend p = Except.ok
      ({ hashInitialized := true
         relns := [freshEntry ⟨rnode, backend⟩ p]
         unowned_relns := [⟨rnode, backend⟩]
         owners := st.owners }, ⟨rnode, backend⟩) := by
  simp [smgropen, hfi, lookupReln, freshEntry]

theorem smgropen_of_miss {st : SMgrState} {rnode : RelFileNode} {backend : Int} {p : Nat}
    (hfi : st.hashInitialized = true)
    (hlk : lookupReln st.relns ⟨rnode, backend⟩ = none) :
    smgropen st rnode backend p = Except.ok
      ({ st with
         relns := st.relns ++ [freshEntry ⟨rnode, backend⟩ p]
         unowned_relns := st.unowned_relns ++ [⟨rnode, backend⟩] }, ⟨rnode, backend⟩) := by
  simp [smgropen, hfi, hlk, freshEntry]

theorem smgropen_of_hit_unknown {st : SMgrState} {rnode : RelFileNode} {backend : Int}
    {p : Nat} {reln : SMgrRelationData} (hfi : st.hashInitialized = true)
    (hlk : lookupReln st.relns ⟨rnode, backend⟩ = some reln)
    (hp : reln.smgr_relpersistence = 0) :
    smgropen st rnode backend p = Except.ok
      ({ st with
         relns := updateReln ⟨rnode, backend⟩
           (fun r => { r with smgr_relpersistence := p }) st.relns }, ⟨rnode, backend⟩) := by
  simp [smgropen, hfi, hlk, hp]

theorem smgropen_of_hit_match {st : SMgrState} {rnode : RelFileNode} {backend : Int}
    {p : Nat} {reln : SMgrRelationData} (hfi : st.hashInitialized = true)
    (hlk : lookupReln st.relns ⟨rnode, backend⟩ = some reln)
    (hp : reln.smgr_relpersistence ≠ 0) (hq : p = 0 ∨ reln.smgr_relpersistence = p) :
    smgropen st rnode backend p = Except.ok (st, ⟨rnode, backend⟩) := by
  simp [smgropen, hfi, hlk, hp, hq]

theorem smgropen_of_hit_mismatch {st : SMgrState} {rnode : RelFileNode} {backend : Int}
    {p : Nat} {reln : SMgrRelationData} (hfi : st.hashInitialized = true)
    (hlk : lookupReln st.relns ⟨rnode, backend⟩ = some reln)
    (hp : reln.smgr_relpersistence ≠ 0) (hq : ¬(p = 0 ∨ reln.smgr_relpersistence = p)) :
    smgropen st rnode backend p = Except.error "relpersistence mismatch" := by
  simp only [smgropen, hfi, if_true, hlk]
  rw [if_neg hp, if_neg hq]

theorem relnKeys_append {l1 l2 : List SMgrRelationData} :
    relnKeys (l1 ++ l2) = relnKeys l1 ++ relnKeys l2 := by
  simp [relnKeys]

theorem registryInv_smgropen {st st' : SMgrState} {rnode : RelFileNode} {backend : Int}
    {p : Nat} {id : RelFileNodeBackend} (h : RegistryInv st)
    (hok : smgropen st rnode backend p = Except.ok (st', id)) :
    RegistryInv st' ∧ id = ⟨rnode, backend⟩ := by
  obtain ⟨h1, h2, h3, h4, h5, h6, h7, h8⟩ := h
  cases hfi : st.hashInitialized with
  | false =>
      rw [smgropen_of_uninit hfi] at hok
      injection hok with hok
      injection hok with hok1 hok2
      subst hok1
      subst hok2
      refine ⟨⟨?_, ?_, ?_, ?_, ?_, h6, ?_, ?_⟩, rfl⟩
      · simp [freshEntry]
      · intro r hr
        rw [List.mem_singleton.mp hr]
        simp [freshEntry]
      · simp
      · intro x hx
        rw [List.mem_singleton.mp hx]
        simp [freshEntry]
      · intro q hq
        rcases h5 q hq with ⟨r, hr, _, _⟩
        rw [(h8 hfi).1] at hr
        simp at hr
      · intro r hr
        rw [List.mem_singleton.mp hr]
        simp [freshEntry, NFORKS]
      · intro hc
        exact Bool.noConfusion hc
  | true =>
      cases hlk : lookupReln st.relns ⟨rnode, backend⟩ with
      | none =>
          rw [smgropen_of_miss hfi hlk] at hok
          injection hok with hok
          injection hok with hok1 hok2
          subst hok1
          subst hok2
          have hnotk : (⟨rnode, backend⟩ : RelFileNodeBackend) ∉ relnKeys st.relns :=
            lookupReln_eq_none.mp hlk
          have hnotu : (⟨rnode, backend⟩ : RelFileNodeBackend) ∉ st.unowned_relns :=
            fun hc => hnotk (h4 _ hc)
          refine ⟨⟨?_, ?_, ?_, ?_, ?_, h6, ?_, ?_⟩, rfl⟩
          · rw [relnKeys_append]
            refine List.nodup_append.mpr ⟨h1, by simp [freshEntry], ?_⟩
            intro a ha hb
            simp [freshEntry, relnKeys] at hb
            rw [hb] at ha
            exact hnotk ha
          · intro r hr
            rcases List.mem_append.mp hr with hm | hm
            · have hne : r.smgr_rnode ≠ ⟨rnode, backend⟩ := by
                intro he
                exact hnotk (by rw [← he]; exact mem_relnKeys.mpr ⟨r, hm, rfl⟩)
              rw [h2 r hm]
              constructor
              · intro hin
                exact List.mem_append_left _ hin
              · intro hin
                rcases List.mem_append.mp hin with hin | hin
                · exact hin
                · exact absurd (List.mem_singleton.mp hin) hne
            · rw [List.mem_singleton.mp hm]
              simp [freshEntry]
          · refine List.nodup_append.mpr ⟨h3, List.nodup_singleton _, ?_⟩
            intro a ha hb
            rw [List.mem_singleton.mp hb] at ha
            exact hnotu ha
          · intro x hx
            rw [relnKeys_append]
            rcases List.mem_append.mp hx with hm | hm
            · exact List.mem_append_left _ (h4 x hm)
            · refine List.mem_append_right _ ?_
              rw [List.mem_singleton.mp hm]
              simp [freshEntry, relnKeys]
          · intro q hq
            rcases h5 q hq with ⟨r, hr, hk, ho⟩
            exact ⟨r, List.mem_append_left _ hr, hk, ho⟩
          · intro r hr
            rcases List.mem_append.mp hr with hm | hm
            · exact h7 r hm
            · rw [List.mem_singleton.mp hm]
              simp [freshEntry, NFORKS]
          · intro hc
            exact Bool.noConfusion (hfi ▸ hc)
      | some reln =>
          by_cases hp : reln.smgr_relpersistence = 0
          · rw [smgropen_of_hit_unknown hfi hlk hp] at hok
            injection hok with hok
            injection hok with hok1 hok2
            subst hok1
            subst hok2
            exact ⟨registryInv_updateReln (fun r => rfl) (fun r => rfl) (fun r => rfl)
              ⟨h1, h2, h3, h4, h5, h6, h7, h8⟩, rfl⟩
          · by_cases hq : p = 0 ∨ reln.smgr_relpersistence = p
            · rw [smgropen_of_hit_match hfi hlk hp hq] at hok
              injection hok with hok
              injection hok with hok1 hok2
              subst hok1
              subst hok2
              exact ⟨⟨h1, h2, h3, h4, h5, h6, h7, h8⟩, rfl⟩
            · rw [smgropen_of_hit_mismatch hfi hlk hp hq] at hok
              exact Except.noConfusion hok

theorem mem_eraseId_iff {l : List RelFileNodeBackend} {a x : RelFileNodeBackend}
    (h : l.Nodup) : x ∈ eraseId l a ↔ x ∈ l ∧ x ≠ a := by
  by_cases hx : x = a
  · subst hx
    exact iff_of_false (not_mem_eraseId h) (fun hc => hc.2 rfl)
  · rw [mem_eraseId_of_ne hx]
    exact ⟨fun h' => ⟨h', hx⟩, fun h' => h'.1⟩

/-- Closing a list of distinct, currently-unowned entries succeeds and removes
exactly those entries from the registry and from the unowned list, leaving
owner slots and the initialization flag untouched. -/
theorem closeList_spec :
    ∀ (l : List RelFileNodeBackend) (st : SMgrState), RegistryInv st → l.Nodup →
    (∀ x ∈ l, x ∈ st.unowned_relns) →
    ∃ st', closeList l st = Except.ok st' ∧ RegistryInv st' ∧
      st'.hashInitialized = st.hashInitialized ∧ st'.owners = st.owners ∧
      (∀ r, r ∈ st'.relns ↔ r ∈ st.relns ∧ r.smgr_rnode ∉ l) ∧
      (∀ x, x ∈ st'.unowned_relns ↔ x ∈ st.unowned_relns ∧ x ∉ l) := by
  intro l
  induction l with
  | nil =>
      intro st hInv _ _
      exact ⟨st, rfl, hInv, rfl, rfl, by simp, by simp⟩
  | cons a rest ih =>
      intro st hInv hnd hsub
      obtain ⟨h1, h2, h3, h4, h5, h6, h7, h8⟩ := hInv
      have hnd' := List.nodup_cons.mp hnd
      have hau : a ∈ st.unowned_relns := hsub a (List.mem_cons_self a rest)
      rcases lookupReln_isSome_of_mem (h4 a hau) with ⟨reln, hlk⟩
      obtain ⟨hmem, hkey⟩ := lookupReln_some hlk
      have hown : reln.smgr_owner = none := (h2 reln hmem).mpr (by rw [hkey]; exact hau)
      have hclose := smgrclose_of_owner_none hlk hown
      have hInv1 : RegistryInv
          { st with
            relns := removeReln st.relns a
            unowned_relns := eraseId st.unowned_relns a } :=
        registryInv_smgrclose ⟨h1, h2, h3, h4, h5, h6, h7, h8⟩ hclose
      have hsub1 : ∀ x ∈ rest, x ∈ eraseId st.unowned_relns a := by
        intro x hx
        refine (mem_eraseId_of_ne ?_).mpr (hsub x (List.mem_cons_of_mem _ hx))
        intro he
        rw [he] at hx
        exact hnd'.1 hx
      rcases ih _ hInv1 hnd'.2 hsub1 with ⟨st', hcl, hInv', hflag, hslots, hrel, hun⟩
      refine ⟨st', ?_, hInv', hflag, hslots, ?_, ?_⟩
      · show closeList (a :: rest) st = Except.ok st'
        simp only [closeList, hclose]
        exact hcl
      · intro r
        rw [hrel r]
        dsimp only
        rw [mem_removeReln]
        constructor
        · rintro ⟨⟨hm, hne⟩, hnr⟩
          refine ⟨hm, ?_⟩
          intro hc
          rcases List.mem_cons.mp hc with hc | hc
          · exact hne hc
          · exact hnr hc
        · rintro ⟨hm, hnc⟩
          exact ⟨⟨hm, fun he => hnc (by rw [he]; exact List.mem_cons_self a rest)⟩,
            fun hc => hnc (List.mem_cons_of_mem _ hc)⟩
      · intro x
        rw [hun x]
        dsimp only
        rw [mem_eraseId_iff h3]
        constructor
        · rintro ⟨⟨hm, hne⟩, hnr⟩
          refine ⟨hm, ?_⟩
          intro hc
          rcases List.mem_cons.mp hc with hc | hc
          · exact hne hc
          · exact hnr hc
        · rintro ⟨hm, hnc⟩
          exact ⟨⟨hm, fun he => hnc (by rw [he]; exact List.mem_cons_self a rest)⟩,
            fun hc => hnc (List.mem_cons_of_mem _ hc)⟩

theorem smgrextend_rnode {r : SMgrRelationData} {fk n : Nat} :
    (smgrextend r fk n).smgr_rnode = r.smgr_rnode := by
  unfold smgrextend
  split <;> rfl

theorem smgrextend_owner {r : SMgrRelationData} {fk n : Nat} :
    (smgrextend r fk n).smgr_owner = r.smgr_owner := by
  unfold smgrextend
  split <;> rfl

theorem smgrextend_length {r : SMgrRelationData} {fk n : Nat} :
    (smgrextend r fk n).smgr_cached_nblocks.length = r.smgr_cached_nblocks.length := by
  unfold smgrextend
  split <;> simp

theorem smgrnblocks_reln_rnode {b : Bool} {ans : Nat} {r : SMgrRelationData} {fk : Nat} :
    ((smgrnblocks b ans r fk).2.1).smgr_rnode = r.smgr_rnode := by
  unfold smgrnblocks
  dsimp only
  split <;> rfl

theorem smgrnblocks_reln_owner {b : Bool} {ans : Nat} {r : SMgrRelationData} {fk : Nat} :
    ((smgrnblocks b ans r fk).2.1).smgr_owner = r.smgr_owner := by
  unfold smgrnblocks
  dsimp only
  split <;> rfl

theorem smgrnblocks_reln_length {b : Bool} {ans : Nat} {r : SMgrRelationData} {fk : Nat} :
    ((smgrnblocks b ans r fk).2.1).smgr_cached_nblocks.length =
      r.smgr_cached_nblocks.length := by
  unfold smgrnblocks
  dsimp only
  split <;> simp

theorem smgrtruncateLoop_cons {fails : Nat → Nat → Bool} {r : SMgrRelationData}
    {fk nb : Nat} {rest : List (Nat × Nat)} :
    smgrtruncateLoop fails r ((fk, nb) :: rest) =
      if fails fk nb then Except.error (setCached r fk InvalidBlockNumber)
      else smgrtruncateLoop fails (setCached (setCached r fk InvalidBlockNumber) fk nb)
        rest := rfl

theorem truncateResult_preserves {fails : Nat → Nat → Bool} {pairs : List (Nat × Nat)} :
    ∀ {r : SMgrRelationData},
    (truncateResult fails r pairs).smgr_rnode = r.smgr_rnode ∧
    (truncateResult fails r pairs).smgr_owner = r.smgr_owner ∧
    (truncateResult fails r pairs).smgr_cached_nblocks.length =
      r.smgr_cached_nblocks.length := by
  induction pairs with
  | nil => intro r; exact ⟨rfl, rfl, rfl⟩
  | cons hd rest ih =>
      intro r
      obtain ⟨fk, nb⟩ := hd
      by_cases hf : fails fk nb = true
      · have he : truncateResult fails r ((fk, nb) :: rest) =
            setCached r fk InvalidBlockNumber := by
          unfold truncateResult
          rw [smgrtruncateLoop_cons, if_pos hf]
        rw [he]
        exact ⟨rfl, rfl, by simp⟩
      · have he : truncateResult fails r ((fk, nb) :: rest) =
            truncateResult fails (setCached (setCached r fk InvalidBlockNumber) fk nb)
              rest := by
          unfold truncateResult
          rw [smgrtruncateLoop_cons, if_neg hf]
        rw [he]
        obtain ⟨e1, e2, e3⟩ :=
          ih (r := setCached (setCached r fk InvalidBlockNumber) fk nb)
        refine ⟨by rw [e1]; rfl, by rw [e2]; rfl, by rw [e3]; simp⟩

theorem registryInv_smgrextendS {st : SMgrState} {id : RelFileNodeBackend} {fk n : Nat}
    (h : RegistryInv st) : RegistryInv (smgrextendS st id fk n) :=
  registryInv_updateReln (fun _ => smgrextend_rnode) (fun _ => smgrextend_owner)
    (fun _ => smgrextend_length) h

theorem registryInv_smgrnblocksS {st : SMgrState} {b : Bool} {ans : Nat}
    {id : RelFileNodeBackend} {fk : Nat} (h : RegistryInv st) :
    RegistryInv (smgrnblocksS st b ans id fk) :=
  registryInv_updateReln (fun _ => smgrnblocks_reln_rnode)
    (fun _ => smgrnblocks_reln_owner) (fun _ => smgrnblocks_reln_length) h

theorem registryInv_smgrtruncateS {st : SMgrState} {id : RelFileNodeBackend}
    {fails : Nat → Nat → Bool} {pairs : List (Nat × Nat)} (h : RegistryInv st) :
    RegistryInv (smgrtruncateS st id fails pairs) :=
  registryInv_updateReln (fun _ => truncateResult_preserves.1)
    (fun _ => truncateResult_preserves.2.1) (fun _ => truncateResult_preserves.2.2) h

/-- Every reachable state satisfies the registry invariant. -/
theorem reachable_registryInv {st : SMgrState} (h : Reachable st) : RegistryInv st := by
  induction h with
  | init => decide
  | open_ok st st' rnode backend p id hr hok ih => exact (registryInv_smgropen ih hok).1
  | set_owner st s id hr ih => exact registryInv_smgrsetowner ih
  | clear_owner st s id hr ih => exact registryInv_smgrclearowner ih
  | close_ok st st' id hr hok ih => exact registryInv_smgrclose ih hok
  | eoxact_ok st st' hr hok ih =>
      rcases closeList_spec st.unowned_relns st ih ih.2.2.1 (fun x hx => hx) with
        ⟨st'', hcl, hInv'', _, _, _, _⟩
      rw [AtEOXact_SMgr, hcl] at hok
      injection hok with hok
      rw [← hok]
      exact hInv''
  | extend_step st id fk n hr ih => exact registryInv_smgrextendS ih
  | nblocks_step st b ans id fk hr ih => exact registryInv_smgrnblocksS ih
  | truncate_step st id fails pairs hr ih => exact registryInv_smgrtruncateS ih

/-- The invariant implies mutual exclusion of slot ownership and the unowned
list. -/
theorem registryInv_notBoth {st : SMgrState} (h : RegistryInv st) :
    NotBothOwnedAndUnowned st := by
  obtain ⟨h1, h2, h3, h4, h5, h6, h7, h8⟩ := h
  intro p hp hin
  rcases h5 p hp with ⟨r, hr, hk, ho⟩
  have hno : r.smgr_owner = none := (h2 r hr).mpr (by rw [hk]; exact hin)
  rw [ho] at hno
  exact Option.noConfusion hno

theorem truncateResult_other {fails : Nat → Nat → Bool} {pairs : List (Nat × Nat)} :
    ∀ {r : SMgrRelationData} {fk : Nat}, fk ∉ pairs.map Prod.fst →
    getCached (truncateResult fails r pairs) fk = getCached r fk := by
  induction pairs with
  | nil => intro r fk _; rfl
  | cons hd rest ih =>
      intro r fk hfk
      obtain ⟨fk0, nb0⟩ := hd
      rw [List.map_cons, List.mem_cons] at hfk
      push_neg at hfk
      have hne : fk0 ≠ fk := fun e => hfk.1 e.symm
      by_cases hf : fails fk0 nb0 = true
      · have he : truncateResult fails r ((fk0, nb0) :: rest) =
            setCached r fk0 InvalidBlockNumber := by
          unfold truncateResult
          rw [smgrtruncateLoop_cons, if_pos hf]
        rw [he]
        exact getCached_setCached_ne hne
      · have he : truncateResult fails r ((fk0, nb0) :: rest) =
            truncateResult fails (setCached (setCached r fk0 InvalidBlockNumber) fk0 nb0)
              rest := by
          unfold truncateResult
          rw [smgrtruncateLoop_cons, if_neg hf]
        rw [he, ih hfk.2, getCached_setCached_ne hne, getCached_setCached_ne hne]

/-- Behaviour of the `smgrtruncate` per-fork loop: on success every listed
fork's cache carries its new count; on a mid-loop backend failure the listed
forks split into the completed prefix (new counts in cache), the failing fork
(cache invalidated before the failing backend call) and an untouched
remainder. -/
theorem smgrtruncateLoop_spec {fails : Nat → Nat → Bool} :
    ∀ (pairs : List (Nat × Nat)) (r : SMgrRelationData),
    (pairs.map Prod.fst).Nodup →
    (∀ q ∈ pairs, q.1 < r.smgr_cached_nblocks.length) →
    (∀ res, smgrtruncateLoop fails r pairs = Except.ok res →
       ∀ q ∈ pairs, fails q.1 q.2 = false ∧ getCached res q.1 = q.2) ∧
    (∀ res, smgrtruncateLoop fails r pairs = Except.error res →
       ∃ done fk nb rest, pairs = done ++ (fk, nb) :: rest ∧ fails fk nb = true ∧
         getCached res fk = InvalidBlockNumber ∧
         (∀ q ∈ done, fails q.1 q.2 = false ∧ getCached res q.1 = q.2) ∧
         (∀ q ∈ rest, getCached res q.1 = getCached r q.1)) := by
  intro pairs
  induction pairs with
  | nil =>
      intro r _ _
      constructor
      · intro res _ q hq
        simp at hq
      · intro res hres
        exact Except.noConfusion hres
  | cons hd rest ih =>
      intro r hnd hlen
      obtain ⟨fk0, nb0⟩ := hd
      rw [List.map_cons, List.nodup_cons] at hnd
      have hfk0len : fk0 < r.smgr_cached_nblocks.length :=
        hlen (fk0, nb0) (List.mem_cons_self _ _)
      by_cases hf : fails fk0 nb0 = true
      · constructor
        · intro res hres
          rw [smgrtruncateLoop_cons, if_pos hf] at hres
          exact Except.noConfusion hres
        · intro res hres
          rw [smgrtruncateLoop_cons, if_pos hf] at hres
          injection hres with hres
          refine ⟨[], fk0, nb0, rest, rfl, hf, ?_, by simp, ?_⟩
          · rw [← hres]
            exact getCached_setCached_self hfk0len
          · intro q hq
            rw [← hres]
            have hne : fk0 ≠ q.1 := by
              intro he
              exact hnd.1 (he ▸ List.mem_map.mpr ⟨q, hq, rfl⟩)
            exact getCached_setCached_ne hne
      · have hlen2 : ∀ q ∈ rest, q.1 < (setCached (setCached r fk0
            InvalidBlockNumber) fk0 nb0).smgr_cached_nblocks.length := by
          intro q hq
          rw [setCached_length, setCached_length]
          exact hlen q (List.mem_cons_of_mem _ hq)
        have hff : fails fk0 nb0 = false := by
          rw [← Bool.not_eq_true]
          exact hf
        rcases ih (setCached (setCached r fk0 InvalidBlockNumber) fk0 nb0) hnd.2 hlen2
          with ⟨ihok, iherr⟩
        constructor
        · intro res hres
          rw [smgrtruncateLoop_cons, if_neg hf] at hres
          intro q hq
          rcases List.mem_cons.mp hq with hq' | hq'
          · have hother : getCached res fk0 = nb0 := by
              have htr : truncateResult fails
                  (setCached (setCached r fk0 InvalidBlockNumber) fk0 nb0) rest = res := by
                unfold truncateResult
                rw [hres]
              rw [← htr, truncateResult_other hnd.1, getCached_setCached_self]
              rw [setCached_length]
              exact hfk0len
            rw [hq']
            exact ⟨hff, hother⟩
          · exact ihok res hres q hq'
        · intro res hres
          rw [smgrtruncateLoop_cons, if_neg hf] at hres
          rcases iherr res hres with ⟨done, fk, nb, rest', hdec, hfl, hinv, hdone, hrest⟩
          have hother : getCached res fk0 = nb0 := by
            have htr : truncateResult fails
                (setCached (setCached r fk0 InvalidBlockNumber) fk0 nb0) rest = res := by
              unfold truncateResult
              rw [hres]
            rw [← htr, truncateResult_other hnd.1, getCached_setCached_self]
            rw [setCached_length]
            exact hfk0len
          refine ⟨(fk0, nb0) :: done, fk, nb, rest', by rw [hdec]; rfl, hfl, hinv, ?_, ?_⟩
          · intro q hq
            rcases List.mem_cons.mp hq with hq' | hq'
            · rw [hq']
              exact ⟨hff, hother⟩
            · exact hdone q hq'
          · intro q hq
            have hqrest : q ∈ rest := by
              rw [hdec]
              exact List.mem_append_right _ (List.mem_cons_of_mem _ hq)
            have hne : fk0 ≠ q.1 := by
              intro he
              exact hnd.1 (he ▸ List.mem_map.mpr ⟨q, hqrest, rfl⟩)
            rw [hrest q hq, getCached_setCached_ne hne, getCached_setCached_ne hne]

theorem pairwise_phase_const {l : List UnlinkEvent} {c : Nat}
    (h : ∀ e ∈ l, unlinkPhase e = c) :
    l.Pairwise (fun a b => unlinkPhase a ≤ unlinkPhase b) := by
  induction l with
  | nil => exact List.Pairwise.nil
  | cons a as ih =>
      refine List.Pairwise.cons ?_ (ih fun e he => h e (List.mem_cons_of_mem _ he))
      intro b hb
      rw [h a (List.mem_cons_self _ _), h b (List.mem_cons_of_mem _ hb)]

theorem phase_closeFork_segment {rels : List RelFileNodeBackend} {e : UnlinkEvent}
    (h : e ∈ rels.flatMap fun r => forkList.map fun fk => UnlinkEvent.closeFork r fk) :
    unlinkPhase e = 1 := by
  simp only [List.mem_flatMap, List.mem_map] at h
  rcases h with ⟨r, _, fk, _, he⟩
  rw [← he]
  rfl

theorem phase_broadcast_segment {rels : List RelFileNodeBackend} {e : UnlinkEvent}
    (h : e ∈ rels.map fun r => UnlinkEvent.invalBroadcast r) : unlinkPhase e = 2 := by
  simp only [List.mem_map] at h
  rcases h with ⟨r, _, he⟩
  rw [← he]
  rfl

theorem phase_unlink_segment {rels : List RelFileNodeBackend} {isRedo : Bool}
    {e : UnlinkEvent}
    (h : e ∈ rels.flatMap fun r =>
      forkList.map fun fk => UnlinkEvent.physicalUnlink r fk isRedo) :
    unlinkPhase e = 3 := by
  simp only [List.mem_flatMap, List.mem_map] at h
  rcases h with ⟨r, _, fk, _, he⟩
  rw [← he]
  rfl

theorem smgrdounlinkall_of_ne_nil {rels : List RelFileNodeBackend} {isRedo : Bool}
    (h : rels ≠ []) :
    smgrdounlinkall rels isRedo =
      UnlinkEvent.dropAllBuffers rels ::
        ((rels.flatMap fun r => forkList.map fun fk => UnlinkEvent.closeFork r fk) ++
         (rels.map fun r => UnlinkEvent.invalBroadcast r) ++
         (rels.flatMap fun r =>
           forkList.map fun fk => UnlinkEvent.physicalUnlink r fk isRedo)) := by
  rw [smgrdounlinkall, if_neg]
  intro hc
  exact h (List.length_eq_zero.mp hc)

theorem smgrdounlinkall_pairwise {rels : List RelFileNodeBackend} {isRedo : Bool}
    (h : rels ≠ []) :
    (smgrdounlinkall rels isRedo).Pairwise
      (fun a b => unlinkPhase a ≤ unlinkPhase b) := by
  rw [smgrdounlinkall_of_ne_nil h]
  refine List.Pairwise.cons ?_ ?_
  · intro b _
    show unlinkPhase (UnlinkEvent.dropAllBuffers rels) ≤ unlinkPhase b
    exact Nat.zero_le _
  · refine List.pairwise_append.mpr ⟨?_, ?_, ?_⟩
    · refine List.pairwise_append.mpr ⟨?_, ?_, ?_⟩
      · exact pairwise_phase_const (fun e he => phase_closeFork_segment he)
      · exact pairwise_phase_const (fun e he => phase_broadcast_segment he)
      · intro a ha b hb
        rw [phase_closeFork_segment ha, phase_broadcast_segment hb]
        exact Nat.le_succ 1
    · exact pairwise_phase_const (fun e he => phase_unlink_segment he)
    · intro a ha b hb
      rw [phase_unlink_segment hb]
      rcases List.mem_append.mp ha with ha' | ha'
      · rw [phase_closeFork_segment ha']
        exact Nat.le_of_lt (by decide)
      · rw [phase_broadcast_segment ha']
        exact Nat.le_succ 2

/-! ### Concrete fixtures for witnesses and counterexamples -/

/-- A first sample identity (shared relation, `InvalidBackendId = -1`). -/
def idA : RelFileNodeBackend := ⟨⟨1, 2, 100⟩, -1⟩

/-- A second, distinct sample identity. -/
def idB : RelFileNodeBackend := ⟨⟨1, 2, 200⟩, -1⟩

/-- A sample permanent-relation entry. -/
def sampleEntry (id : RelFileNodeBackend) : SMgrRelationData :=
  freshEntry id RELPERSISTENCE_PERMANENT

/-- A sample registry state: two unowned permanent entries, no owner slots. -/
def sampleState : SMgrState :=
  { hashInitialized := true
    relns := [sampleEntry idA, sampleEntry idB]
    unowned_relns := [idA, idB]
    owners := [] }

/-- A sample registry state whose single entry still has unknown (0)
durability class. -/
def sampleStateU : SMgrState :=
  { hashInitialized := true
    relns := [freshEntry idA 0]
    unowned_relns := [idA]
    owners := [] }

/-- C1, counterexample: the claim asserts that `set_owner(owner_slot, handle)`
nulls the owner back-reference of a previous occupant of `owner_slot`.  In
the state `sampleState` (which satisfies the registry invariant), after
`set_owner(0, idA)` the slot 0 holds `idA`; the subsequent
`set_owner(0, idB)` with the different handle `idB` leaves `idA`'s owner
back-reference equal to `some 0` — it is not nulled, contradicting the
claim. -/
theorem smgrsetowner_claim_counterexample :
    RegistryInv sampleState ∧
    slotGet (smgrsetowner sampleState 0 idA).owners 0 = some idA ∧
    idB ≠ idA ∧
    (lookupReln (smgrsetowner (smgrsetowner sampleState 0 idA) 0 idB).relns idA).map
      SMgrRelationData.smgr_owner = some (some 0) := by
  decide

/-- C1 (amended): `set_owner(owner_slot, handle)` nulls the handle's previous
owner slot if it had one (or removes the handle from the unowned set if it
had none), then establishes `handle.owner == owner_slot` and
`*owner_slot == handle`.  It does not detach a previous occupant of
`owner_slot`: every other handle's entry — including a previous occupant's
owner back-reference — is left unchanged. -/
theorem smgrsetowner_spec {st : SMgrState} {s : Nat} {id : RelFileNodeBackend}
    {reln : SMgrRelationData} (hInv : RegistryInv st)
    (hlk : lookupReln st.relns id = some reln) :
    (∃ r', lookupReln (smgrsetowner st s id).relns id = some r' ∧
       r'.smgr_owner = some s) ∧
    slotGet (smgrsetowner st s id).owners s = some id ∧
    (∀ t, reln.smgr_owner = some t → t ≠ s →
       slotGet (smgrsetowner st s id).owners t = none) ∧
    (reln.smgr_owner = none → id ∉ (smgrsetowner st s id).unowned_relns) ∧
    (∀ id', id' ≠ id →
       lookupReln (smgrsetowner st s id).relns id' = lookupReln st.relns id') := by
  have hupd : lookupReln
      (updateReln id (fun r => { r with smgr_owner := some s }) st.relns) id =
      some { reln with smgr_owner := some s } := by
    rw [lookupReln_updateReln_self (f := fun r => { r with smgr_owner := some s })
      (fun r => rfl), hlk]
    rfl
  cases hown : reln.smgr_owner with
  | some old =>
      rw [smgrsetowner_of_owner_some hlk hown]
      dsimp only
      refine ⟨⟨{ reln with smgr_owner := some s }, hupd, rfl⟩, slotGet_setSlot_self,
        ?_, ?_, ?_⟩
      · intro t ht hts
        injection ht with ht
        rw [slotGet_setSlot_ne hts, ← ht]
        exact slotGet_removeSlot_self
      · intro hc
        exact Option.noConfusion hc
      · intro id' hne
        exact lookupReln_updateReln_ne
          (f := fun r => { r with smgr_owner := some s }) (fun r => rfl) hne st.relns
  | none =>
      rw [smgrsetowner_of_owner_none hlk hown]
      dsimp only
      refine ⟨⟨{ reln with smgr_owner := some s }, hupd, rfl⟩, slotGet_setSlot_self,
        ?_, ?_, ?_⟩
      · intro t ht _
        exact Option.noConfusion ht
      · intro _
        exact not_mem_eraseId hInv.2.2.1
      · intro id' hne
        exact lookupReln_updateReln_ne
          (f := fun r => { r with smgr_owner := some s }) (fun r => rfl) hne st.relns

/-- C1 (amended), witness at `sampleState`, slot 0 and handle `idA`. -/
theorem smgrsetowner_spec_witness :
    (∃ r', lookupReln (smgrsetowner sampleState 0 idA).relns idA = some r' ∧
       r'.smgr_owner = some 0) ∧
    slotGet (smgrsetowner sampleState 0 idA).owners 0 = some idA ∧
    (∀ t, (sampleEntry idA).smgr_owner = some t → t ≠ 0 →
       slotGet (smgrsetowner sampleState 0 idA).owners t = none) ∧
    ((sampleEntry idA).smgr_owner = none →
       idA ∉ (smgrsetowner sampleState 0 idA).unowned_relns) ∧
    (∀ id', id' ≠ idA →
       lookupReln (smgrsetowner sampleState 0 idA).relns id' =
         lookupReln sampleState.relns id') :=
  smgrsetowner_spec (by decide)
    (by decide : lookupReln sampleState.relns idA = some (sampleEntry idA))

/-- C2: in any state satisfying the registry invariant, a successful
`smgropen` returns the key `⟨rnode, backend⟩` itself, afterwards the registry
holds an entry for that key whose identity field equals it, the registry
keys are still free of duplicates (at most one entry per identity), and if
the key was already present no new keyed entry is created (the key list is
unchanged). -/
theorem smgropen_registry_unique {st st' : SMgrState} {rnode : RelFileNode}
    {backend : Int} {p : Nat} {id : RelFileNodeBackend} (hInv : RegistryInv st)
    (hok : smgropen st rnode backend p = Except.ok (st', id)) :
    id = ⟨rnode, backend⟩ ∧
    (∃ r, lookupReln st'.relns id = some r ∧ r.smgr_rnode = id) ∧
    (relnKeys st'.relns).Nodup ∧
    (lookupReln st.relns id ≠ none → relnKeys st'.relns = relnKeys st.relns) := by
  obtain ⟨hInv', hid⟩ := registryInv_smgropen hInv hok
  subst hid
  refine ⟨rfl, ?_, hInv'.1, ?_⟩
  · cases hfi : st.hashInitialized with
    | false =>
        rw [smgropen_of_uninit hfi] at hok
        injection hok with hok
        injection hok with hok1 _
        subst hok1
        exact ⟨freshEntry ⟨rnode, backend⟩ p, by simp [lookupReln, freshEntry], rfl⟩
    | true =>
        cases hlk : lookupReln st.relns ⟨rnode, backend⟩ with
        | none =>
            rw [smgropen_of_miss hfi hlk] at hok
            injection hok with hok
            injection hok with hok1 _
            subst hok1
            refine ⟨freshEntry ⟨rnode, backend⟩ p, ?_, rfl⟩
            dsimp only
            rw [lookupReln_append_of_none hlk]
            simp [lookupReln, freshEntry]
        | some reln =>
            by_cases hp : reln.smgr_relpersistence = 0
            · rw [smgropen_of_hit_unknown hfi hlk hp] at hok
              injection hok with hok
              injection hok with hok1 _
              subst hok1
              refine ⟨{ reln with smgr_relpersistence := p }, ?_,
                (lookupReln_some hlk).2⟩
              dsimp only
              rw [lookupReln_updateReln_self
                (f := fun r => { r with smgr_relpersistence := p }) (fun r => rfl), hlk]
              rfl
            · by_cases hq : p = 0 ∨ reln.smgr_relpersistence = p
              · rw [smgropen_of_hit_match hfi hlk hp hq] at hok
                injection hok with hok
                injection hok with hok1 _
                subst hok1
                exact ⟨reln, hlk, (lookupReln_some hlk).2⟩
              · rw [smgropen_of_hit_mismatch hfi hlk hp hq] at hok
                exact Except.noConfusion hok
  · intro hsome
    cases hfi : st.hashInitialized with
    | false =>
        exfalso
        rw [(hInv.2.2.2.2.2.2.2 hfi).1] at hsome
        exact hsome rfl
    | true =>
        cases hlk : lookupReln st.relns ⟨rnode, backend⟩ with
        | none => exact absurd hlk hsome
        | some reln =>
            by_cases hp : reln.smgr_relpersistence = 0
            · rw [smgropen_of_hit_unknown hfi hlk hp] at hok
              injection hok with hok
              injection hok with hok1 _
              subst hok1
              exact relnKeys_updateReln
                (f := fun r => { r with smgr_relpersistence := p }) (fun r => rfl) st.relns
            · by_cases hq : p = 0 ∨ reln.smgr_relpersistence = p
              · rw [smgropen_of_hit_match hfi hlk hp hq] at hok
                injection hok with hok
                injection hok with hok1 _
                subst hok1
                rfl
              · rw [smgropen_of_hit_mismatch hfi hlk hp hq] at hok
                exact Except.noConfusion hok

/-- C2, witness: reopening the already-registered `idA` in `sampleState`. -/
theorem smgropen_registry_unique_witness :
    idA = ⟨⟨1, 2, 100⟩, -1⟩ ∧
    (∃ r, lookupReln sampleState.relns idA = some r ∧ r.smgr_rnode = idA) ∧
    (relnKeys sampleState.relns).Nodup ∧
    (lookupReln sampleState.relns idA ≠ none →
       relnKeys sampleState.relns = relnKeys sampleState.relns) :=
  smgropen_registry_unique (by decide)
    (rfl : smgropen sampleState ⟨1, 2, 100⟩ (-1) RELPERSISTENCE_PERMANENT =
      Except.ok (sampleState, idA))

/-- C3: for every registered handle, `set_owner(S, h)` followed by
`clear_owner(S, h)` leaves `h` with no owner and a member of the unowned
list; and in every reachable state (every observable point) no handle is
simultaneously referenced by an owner slot and a member of the unowned
list. -/
theorem ownership_roundtrip_and_exclusion :
    (∀ (st : SMgrState) (s : Nat) (id : RelFileNodeBackend) (reln : SMgrRelationData),
       lookupReln st.relns id = some reln →
       (∃ r', lookupReln (smgrclearowner (smgrsetowner st s id) s id).relns id =
          some r' ∧ r'.smgr_owner = none) ∧
       id ∈ (smgrclearowner (smgrsetowner st s id) s id).unowned_relns) ∧
    (∀ st : SMgrState, Reachable st → NotBothOwnedAndUnowned st) := by
  constructor
  · intro st s id reln hlk
    have hupd : lookupReln
        (updateReln id (fun r => { r with smgr_owner := some s }) st.relns) id =
        some { reln with smgr_owner := some s } := by
      rw [lookupReln_updateReln_self (f := fun r => { r with smgr_owner := some s })
        (fun r => rfl), hlk]
      rfl
    have main : ∀ st1 : SMgrState,
        st1.relns = updateReln id (fun r => { r with smgr_owner := some s }) st.relns →
        (∃ r', lookupReln (smgrclearowner st1 s id).relns id = some r' ∧
           r'.smgr_owner = none) ∧
        id ∈ (smgrclearowner st1 s id).unowned_relns := by
      intro st1 hrel
      have hlk1 : lookupReln st1.relns id = some { reln with smgr_owner := some s } := by
        rw [hrel]
        exact hupd
      rw [smgrclearowner_of_owner hlk1 rfl]
      dsimp only
      constructor
      · refine ⟨{ reln with smgr_owner := none }, ?_, rfl⟩
        rw [hrel, lookupReln_updateReln_self (f := fun r => { r with smgr_owner := none })
          (fun r => rfl), hupd]
        rfl
      · exact List.mem_append_right _ (List.mem_singleton.mpr rfl)
    cases hown : reln.smgr_owner with
    | some old =>
        rw [smgrsetowner_of_owner_some hlk hown]
        exact main _ rfl
    | none =>
        rw [smgrsetowner_of_owner_none hlk hown]
        exact main _ rfl
  · intro st h
    exact registryInv_notBoth (reachable_registryInv h)

/-- C3, witness: the round trip on `sampleState` with slot 0 and handle
`idA`, and the exclusion property at the initial state. -/
theorem ownership_roundtrip_and_exclusion_witness :
    ((∃ r', lookupReln (smgrclearowner (smgrsetowner sampleState 0 idA) 0 idA).relns
        idA = some r' ∧ r'.smgr_owner = none) ∧
     idA ∈ (smgrclearowner (smgrsetowner sampleState 0 idA) 0 idA).unowned_relns) ∧
    NotBothOwnedAndUnowned initialState :=
  ⟨ownership_roundtrip_and_exclusion.1 sampleState 0 idA (sampleEntry idA)
     (by decide),
   ownership_roundtrip_and_exclusion.2 initialState Reachable.init⟩

/-- C4: for an existing entry, `smgropen` with stored durability class
unknown (0) succeeds and stores the hint; with both concrete and equal it
succeeds leaving the state unchanged; with both concrete and different it
fails with the relpersistence-mismatch error.  Consequently
unknown-to-permanent succeeds, permanent again succeeds (unchanged), and a
subsequent unlogged hint fails. -/
theorem smgropen_relpersistence_rules {st : SMgrState} {rnode : RelFileNode}
    {backend : Int} {reln : SMgrRelationData} (hfi : st.hashInitialized = true)
    (hlk : lookupReln st.relns ⟨rnode, backend⟩ = some reln) :
    (∀ p, reln.smgr_relpersistence = 0 → ∃ st',
       smgropen st rnode backend p = Except.ok (st', ⟨rnode, backend⟩) ∧
       lookupReln st'.relns ⟨rnode, backend⟩ =
         some { reln with smgr_relpersistence := p }) ∧
    (∀ p, reln.smgr_relpersistence ≠ 0 → reln.smgr_relpersistence = p →
       smgropen st rnode backend p = Except.ok (st, ⟨rnode, backend⟩)) ∧
    (∀ p, reln.smgr_relpersistence ≠ 0 → p ≠ 0 → reln.smgr_relpersistence ≠ p →
       smgropen st rnode backend p = Except.error "relpersistence mismatch") ∧
    (reln.smgr_relpersistence = 0 → ∃ st',
       smgropen st rnode backend RELPERSISTENCE_PERMANENT =
         Except.ok (st', ⟨rnode, backend⟩) ∧
       smgropen st' rnode backend RELPERSISTENCE_PERMANENT =
         Except.ok (st', ⟨rnode, backend⟩) ∧
       smgropen st' rnode backend RELPERSISTENCE_UNLOGGED =
         Except.error "relpersistence mismatch") := by
  have hOpenUnknown : ∀ p, reln.smgr_relpersistence = 0 →
      smgropen st rnode backend p = Except.ok
        ({ st with relns := updateReln ⟨rnode, backend⟩ (fun r => { r with smgr_relpersistence := p }) st.relns }, ⟨rnode, backend⟩) :=
    fun p hp => smgropen_of_hit_unknown hfi hlk hp
  have hLookupAfter : ∀ p, lookupReln
      (updateReln ⟨rnode, backend⟩
        (fun r => { r with smgr_relpersistence := p }) st.relns) ⟨rnode, backend⟩ =
      some { reln with smgr_relpersistence := p } := by
    intro p
    rw [lookupReln_updateReln_self (f := fun r => { r with smgr_relpersistence := p })
      (fun r => rfl), hlk]
    rfl
  refine ⟨?_, ?_, ?_, ?_⟩
  · intro p hp
    exact ⟨_, hOpenUnknown p hp, hLookupAfter p⟩
  · intro p hp hpe
    exact smgropen_of_hit_match hfi hlk hp (Or.inr hpe)
  · intro p hp hp0 hpe
    refine smgropen_of_hit_mismatch hfi hlk hp ?_
    rintro (hc | hc)
    · exact hp0 hc
    · exact hpe hc
  · intro hp
    refine ⟨_, hOpenUnknown RELPERSISTENCE_PERMANENT hp, ?_, ?_⟩
    · refine smgropen_of_hit_match hfi (hLookupAfter RELPERSISTENCE_PERMANENT) ?_
        (Or.inr rfl)
      exact (by decide : RELPERSISTENCE_PERMANENT ≠ 0)
    · refine smgropen_of_hit_mismatch hfi (hLookupAfter RELPERSISTENCE_PERMANENT) ?_ ?_
      · exact (by decide : RELPERSISTENCE_PERMANENT ≠ 0)
      · exact (by decide : ¬(RELPERSISTENCE_UNLOGGED = 0 ∨
          RELPERSISTENCE_PERMANENT = RELPERSISTENCE_UNLOGGED))

/-- C4, witness: the unknown → permanent → permanent → unlogged scenario in
`sampleStateU`. -/
theorem smgropen_relpersistence_rules_witness :
    ∃ st', smgropen sampleStateU ⟨1, 2, 100⟩ (-1) RELPERSISTENCE_PERMANENT =
      Except.ok (st', ⟨⟨1, 2, 100⟩, -1⟩) ∧
    smgropen st' ⟨1, 2, 100⟩ (-1) RELPERSISTENCE_PERMANENT =
      Except.ok (st', ⟨⟨1, 2, 100⟩, -1⟩) ∧
    smgropen st' ⟨1, 2, 100⟩ (-1) RELPERSISTENCE_UNLOGGED =
      Except.error "relpersistence mismatch" :=
  (smgropen_relpersistence_rules (by decide)
    (by decide : lookupReln sampleStateU.relns ⟨⟨1, 2, 100⟩, -1⟩ =
      some (freshEntry idA 0))).2.2.2 (by decide)

/-- C10: for an existing entry whose durability class is already concrete,
`smgropen` with an unknown (0) hint never raises the mismatch error and
leaves the state — in particular the stored durability class — unchanged. -/
theorem smgropen_unknown_hint_noop {st : SMgrState} {rnode : RelFileNode}
    {backend : Int} {reln : SMgrRelationData} (hfi : st.hashInitialized = true)
    (hlk : lookupReln st.relns ⟨rnode, backend⟩ = some reln)
    (hp : reln.smgr_relpersistence ≠ 0) :
    smgropen st rnode backend 0 = Except.ok (st, ⟨rnode, backend⟩) :=
  smgropen_of_hit_match hfi hlk hp (Or.inl rfl)

/-- C10, witness: `sampleState` stores the concrete class permanent for
`idA`; opening with hint 0 succeeds and changes nothing. -/
theorem smgropen_unknown_hint_noop_witness :
    smgropen sampleState ⟨1, 2, 100⟩ (-1) 0 = Except.ok (sampleState, ⟨⟨1, 2, 100⟩, -1⟩) :=
  smgropen_unknown_hint_noop (by decide)
    (by decide : lookupReln sampleState.relns ⟨⟨1, 2, 100⟩, -1⟩ =
      some (sampleEntry idA)) (by decide)

/-- C5: after a successful extend at a valid block number `n`, the cached
count of the fork becomes `n + 1` exactly when it equalled `n` beforehand,
and becomes unknown (`InvalidBlockNumber`) for every other prior value,
including unknown itself. -/
theorem smgrextend_cache_update {r : SMgrRelationData} {fk n : Nat}
    (hfk : fk < r.smgr_cached_nblocks.length) (hn : n < InvalidBlockNumber) :
    (getCached r fk = n → getCached (smgrextend r fk n) fk = n + 1) ∧
    (getCached r fk ≠ n → getCached (smgrextend r fk n) fk = InvalidBlockNumber) := by
  constructor
  · intro he
    rw [smgrextend, if_pos he, getCached_setCached_self hfk]
    have hlt : n + 1 < 2 ^ 32 := by
      have h32 : InvalidBlockNumber = 2 ^ 32 - 1 := rfl
      omega
    exact Nat.mod_eq_of_lt hlt
  · intro he
    rw [smgrextend, if_neg he, getCached_setCached_self hfk]

/-- C5, witness: on an entry whose fork-0 cache holds 5, extending at block 5
yields 6; on the fresh entry (fork-0 cache unknown) extending at block 5
invalidates. -/
theorem smgrextend_cache_update_witness :
    getCached (smgrextend (setCached (sampleEntry idA) 0 5) 0 5) 0 = 6 ∧
    getCached (smgrextend (sampleEntry idA) 0 5) 0 = InvalidBlockNumber :=
  ⟨(smgrextend_cache_update (by decide) (by decide)).1 (by decide),
   (smgrextend_cache_update (by decide) (by decide)).2 (by decide)⟩

/-- C6: `smgrnblocks` answers without querying the backend exactly when the
process is in recovery and the cached count is known; in that case it returns
the cached count and leaves the entry unchanged.  In every other case it
queries the backend, returns the backend's answer and stores it in the
cache.  In particular, after the truncate loop set fork 0 (MAIN) to 5, a
recovery-mode `smgrnblocks` returns 5 without a backend query. -/
theorem smgrnblocks_cache_trust {b : Bool} {a : Nat} {r : SMgrRelationData}
    {k : Nat} (_hfk : k < NFORKS) (hlen : r.smgr_cached_nblocks.length = NFORKS) :
    ((smgrnblocks b a r k).2.2 = false ↔
       (b = true ∧ getCached r k ≠ InvalidBlockNumber)) ∧
    (b = true ∧ getCached r k ≠ InvalidBlockNumber →
       smgrnblocks b a r k = (getCached r k, r, false)) ∧
    (¬(b = true ∧ getCached r k ≠ InvalidBlockNumber) →
       smgrnblocks b a r k = (a, setCached r k a, true)) ∧
    (∀ res, smgrtruncateLoop (fun _ _ => false) r [(0, 5)] = Except.ok res →
       smgrnblocks true a res 0 = (5, res, false)) := by
  have hmain : ∀ rc : Bool, ∀ r' : SMgrRelationData, ∀ fk' : Nat,
      (rc = true ∧ getCached r' fk' ≠ InvalidBlockNumber →
        smgrnblocks rc a r' fk' = (getCached r' fk', r', false)) ∧
      (¬(rc = true ∧ getCached r' fk' ≠ InvalidBlockNumber) →
        smgrnblocks rc a r' fk' = (a, setCached r' fk' a, true)) := by
    intro rc r' fk'
    constructor
    · intro ht
      rw [smgrnblocks, smgrnblocks_cached, if_pos ht]
      rw [if_pos ht.2]
    · intro ht
      rw [smgrnblocks, smgrnblocks_cached, if_neg ht]
      rw [if_neg (fun hc => hc rfl)]
  refine ⟨?_, (hmain b r k).1, (hmain b r k).2, ?_⟩
  · by_cases ht : b = true ∧ getCached r k ≠ InvalidBlockNumber
    · rw [(hmain b r k).1 ht]
      exact iff_of_true rfl ht
    · rw [(hmain b r k).2 ht]
      exact iff_of_false (by simp) ht
  · intro res hres
    have hres' : res = setCached (setCached r 0 InvalidBlockNumber) 0 5 := by
      rw [smgrtruncateLoop_cons] at hres
      rw [if_neg (by simp)] at hres
      injection hres with hres
      exact hres.symm
    have h05 : getCached res 0 = 5 := by
      rw [hres']
      refine getCached_setCached_self ?_
      rw [setCached_length, hlen]
      decide
    have htr : true = true ∧ getCached res 0 ≠ InvalidBlockNumber := by
      refine ⟨rfl, ?_⟩
      rw [h05]
      decide
    rw [(hmain true res 0).1 htr, h05]

/-- C6, witness: the truncate-then-read scenario on the fresh entry of
`idA`, plus the no-trust case outside recovery. -/
theorem smgrnblocks_cache_trust_witness :
    smgrnblocks true 7 (setCached (setCached (sampleEntry idA) 0 InvalidBlockNumber) 0 5)
      0 = (5, setCached (setCached (sampleEntry idA) 0 InvalidBlockNumber) 0 5, false) ∧
    ((smgrnblocks false 7 (sampleEntry idA) 0).2.2 = false ↔
       (false = true ∧ getCached (sampleEntry idA) 0 ≠ InvalidBlockNumber)) :=
  ⟨(smgrnblocks_cache_trust (b := true) (a := 7) (k := 0)
      (by decide) (show (sampleEntry idA).smgr_cached_nblocks.length = NFORKS by decide)).2.2.2
      _ rfl,
   (smgrnblocks_cache_trust (b := false) (a := 7) (k := 0)
      (by decide) (show (sampleEntry idA).smgr_cached_nblocks.length = NFORKS by decide)).1⟩

/-- C7: for every fork processed by the `smgrtruncate` loop, the cached count
is invalidated before the backend truncate call for that fork and set to the
new count only after it returns.  If the loop runs to completion every listed
fork's cache holds its new count; if a backend truncate fails partway, then
among the processed forks the completed ones hold their new counts and the
failing one holds unknown — never the stale pre-truncate size — while the
unprocessed remainder is untouched. -/
theorem smgrtruncate_cache_invalidation {fails : Nat → Nat → Bool}
    {r : SMgrRelationData} {pairs : List (Nat × Nat)}
    (hnd : (pairs.map Prod.fst).Nodup)
    (hlen : ∀ q ∈ pairs, q.1 < r.smgr_cached_nblocks.length) :
    (∀ res, smgrtruncateLoop fails r pairs = Except.ok res →
       ∀ q ∈ pairs, fails q.1 q.2 = false ∧ getCached res q.1 = q.2) ∧
    (∀ res, smgrtruncateLoop fails r pairs = Except.error res →
       ∃ done fk nb rest, pairs = done ++ (fk, nb) :: rest ∧ fails fk nb = true ∧
         getCached res fk = InvalidBlockNumber ∧
         (∀ q ∈ done, fails q.1 q.2 = false ∧ getCached res q.1 = q.2) ∧
         (∀ q ∈ rest, getCached res q.1 = getCached r q.1)) :=
  smgrtruncateLoop_spec pairs r hnd hlen

/-- The entry state at which the witness truncate run fails: fork 0 already
set to its new count 5, fork 1 invalidated just before its failing backend
call. -/
def truncFailedState : SMgrRelationData :=
  setCached (setCached (setCached (sampleEntry idA) 0 InvalidBlockNumber) 0 5) 1
    InvalidBlockNumber

/-- C7, witness: truncating forks 0, 1, 2 of the fresh entry of `idA` to
5, 2, 7 blocks with the backend failing on fork 1: fork 0 holds 5, fork 1 is
invalidated, fork 2 is untouched. -/
theorem smgrtruncate_cache_invalidation_witness :
    ∃ done fk nb rest,
      ([(0, 5), (1, 2), (2, 7)] : List (Nat × Nat)) = done ++ (fk, nb) :: rest ∧
      (fun fk _ => decide (fk = 1)) fk nb = true ∧
      getCached truncFailedState fk = InvalidBlockNumber ∧
      (∀ q ∈ done, (fun fk _ => decide (fk = 1)) q.1 q.2 = false ∧
        getCached truncFailedState q.1 = q.2) ∧
      (∀ q ∈ rest, getCached truncFailedState q.1 = getCached (sampleEntry idA) q.1) :=
  (smgrtruncate_cache_invalidation (by decide) (by decide)).2 truncFailedState rfl

/-- C8: on a non-empty relation list, the `smgrdounlinkall` call trace starts
with the buffer drop, its phases (buffer drop, smgr-level fork closes,
invalidation broadcasts, physical unlinks) are monotone along the trace, a
physical unlink never precedes an invalidation broadcast, and the trace
contains the broadcast for every given identity and the close and unlink of
every fork of every given identity. -/
theorem smgrdounlinkall_ordering (rels : List RelFileNodeBackend) (isRedo : Bool)
    (h : rels ≠ []) :
    (smgrdounlinkall rels isRedo).head? = some (UnlinkEvent.dropAllBuffers rels) ∧
    (∀ (i j : Nat) (hi : i < (smgrdounlinkall rels isRedo).length)
       (hj : j < (smgrdounlinkall rels isRedo).length), i ≤ j →
       unlinkPhase ((smgrdounlinkall rels isRedo).get ⟨i, hi⟩) ≤
         unlinkPhase ((smgrdounlinkall rels isRedo).get ⟨j, hj⟩)) ∧
    (∀ (i j : Nat) (hi : i < (smgrdounlinkall rels isRedo).length)
       (hj : j < (smgrdounlinkall rels isRedo).length),
       unlinkPhase ((smgrdounlinkall rels isRedo).get ⟨i, hi⟩) = 3 →
       unlinkPhase ((smgrdounlinkall rels isRedo).get ⟨j, hj⟩) = 2 → j < i) ∧
    (∀ r ∈ rels, UnlinkEvent.invalBroadcast r ∈ smgrdounlinkall rels isRedo) ∧
    (∀ r ∈ rels, ∀ fk ∈ forkList,
       UnlinkEvent.closeFork r fk ∈ smgrdounlinkall rels isRedo ∧
       UnlinkEvent.physicalUnlink r fk isRedo ∈ smgrdounlinkall rels isRedo) := by
  have hpw : (smgrdounlinkall rels isRedo).Pairwise
      (fun a b => unlinkPhase a ≤ unlinkPhase b) := smgrdounlinkall_pairwise h
  have hmono : ∀ (i j : Nat) (hi : i < (smgrdounlinkall rels isRedo).length)
      (hj : j < (smgrdounlinkall rels isRedo).length), i ≤ j →
      unlinkPhase ((smgrdounlinkall rels isRedo).get ⟨i, hi⟩) ≤
        unlinkPhase ((smgrdounlinkall rels isRedo).get ⟨j, hj⟩) := by
    intro i j hi hj hij
    rcases Nat.eq_or_lt_of_le hij with he | hlt
    · subst he
      exact Nat.le_refl _
    · exact List.pairwise_iff_getElem.mp hpw i j hi hj hlt
  refine ⟨?_, hmono, ?_, ?_, ?_⟩
  · rw [smgrdounlinkall_of_ne_nil h]
    rfl
  · intro i j hi hj h3 h2c
    by_contra hc
    have hij : i ≤ j := Nat.le_of_not_lt hc
    have := hmono i j hi hj hij
    rw [h3, h2c] at this
    exact absurd this (by decide)
  · intro r hr
    rw [smgrdounlinkall_of_ne_nil h]
    refine List.mem_cons_of_mem _ ?_
    refine List.mem_append_left _ (List.mem_append_right _ ?_)
    exact List.mem_map.mpr ⟨r, hr, rfl⟩
  · intro r hr fk hfk
    rw [smgrdounlinkall_of_ne_nil h]
    constructor
    · refine List.mem_cons_of_mem _ ?_
      refine List.mem_append_left _ (List.mem_append_left _ ?_)
      exact List.mem_flatMap.mpr ⟨r, hr, List.mem_map.mpr ⟨fk, hfk, rfl⟩⟩
    · refine List.mem_cons_of_mem _ ?_
      refine List.mem_append_right _ ?_
      exact List.mem_flatMap.mpr ⟨r, hr, List.mem_map.mpr ⟨fk, hfk, rfl⟩⟩

/-- C8, witness: the trace for the single relation `idA` with `isRedo`
true. -/
theorem smgrdounlinkall_ordering_witness :
    (smgrdounlinkall [idA] true).head? = some (UnlinkEvent.dropAllBuffers [idA]) ∧
    (∀ (i j : Nat) (hi : i < (smgrdounlinkall [idA] true).length)
       (hj : j < (smgrdounlinkall [idA] true).length), i ≤ j →
       unlinkPhase ((smgrdounlinkall [idA] true).get ⟨i, hi⟩) ≤
         unlinkPhase ((smgrdounlinkall [idA] true).get ⟨j, hj⟩)) ∧
    (∀ (i j : Nat) (hi : i < (smgrdounlinkall [idA] true).length)
       (hj : j < (smgrdounlinkall [idA] true).length),
       unlinkPhase ((smgrdounlinkall [idA] true).get ⟨i, hi⟩) = 3 →
       unlinkPhase ((smgrdounlinkall [idA] true).get ⟨j, hj⟩) = 2 → j < i) ∧
    (∀ r ∈ [idA], UnlinkEvent.invalBroadcast r ∈ smgrdounlinkall [idA] true) ∧
    (∀ r ∈ [idA], ∀ fk ∈ forkList,
       UnlinkEvent.closeFork r fk ∈ smgrdounlinkall [idA] true ∧
       UnlinkEvent.physicalUnlink r fk true ∈ smgrdounlinkall [idA] true) :=
  smgrdounlinkall_ordering [idA] true (by decide)

/-- C9: in any state satisfying the registry invariant, the end-of-transaction
sweep succeeds, empties the unowned list, closes exactly the entries that
have no owner (an entry survives exactly when it has an owner), and a
subsequent `smgropen` for a swept identity succeeds and creates a fresh entry
whose per-fork cached counts are all unknown. -/
theorem atEOXact_sweep_spec {st : SMgrState} (hInv : RegistryInv st) :
    ∃ st', AtEOXact_SMgr st = Except.ok st' ∧
      (∀ x, x ∉ st'.unowned_relns) ∧
      (∀ r, r ∈ st'.relns ↔ r ∈ st.relns ∧ r.smgr_owner ≠ none) ∧
      (∀ id ∈ st.unowned_relns, ∀ p, ∃ st'',
         smgropen st' id.node id.backend p = Except.ok (st'', id) ∧
         lookupReln st''.relns id = some (freshEntry id p)) := by
  rcases closeList_spec st.unowned_relns st hInv hInv.2.2.1 (fun x hx => hx) with
    ⟨st', hcl, hInv', hflag, _, hrel, hun⟩
  refine ⟨st', hcl, ?_, ?_, ?_⟩
  · intro x hx
    exact ((hun x).mp hx).2 ((hun x).mp hx).1
  · intro r
    rw [hrel r]
    constructor
    · rintro ⟨hm, hnin⟩
      exact ⟨hm, fun hnone => hnin ((hInv.2.1 r hm).mp hnone)⟩
    · rintro ⟨hm, hno⟩
      exact ⟨hm, fun hin => hno ((hInv.2.1 r hm).mpr hin)⟩
  · intro id hid p
    obtain ⟨rn, bk⟩ := id
    have hfi : st.hashInitialized = true := by
      by_contra hc
      rw [Bool.not_eq_true] at hc
      rw [(hInv.2.2.2.2.2.2.2 hc).2] at hid
      simp at hid
    have hfi' : st'.hashInitialized = true := by rw [hflag]; exact hfi
    have hlk' : lookupReln st'.relns ⟨rn, bk⟩ = none := by
      cases hl : lookupReln st'.relns ⟨rn, bk⟩ with
      | none => rfl
      | some r' =>
          exfalso
          obtain ⟨hm', hk'⟩ := lookupReln_some hl
          have := (hrel r').mp hm'
          apply this.2
          rw [hk']
          exact hid
    refine ⟨_, smgropen_of_miss hfi' hlk', ?_⟩
    dsimp only
    rw [lookupReln_append_of_none hlk']
    simp [lookupReln, freshEntry]

/-- C9, witness at `sampleState` (both entries unowned, so both are swept and
both identities can be freshly reopened). -/
theorem atEOXact_sweep_spec_witness :
    ∃ st', AtEOXact_SMgr sampleState = Except.ok st' ∧
      (∀ x, x ∉ st'.unowned_relns) ∧
      (∀ r, r ∈ st'.relns ↔ r ∈ sampleState.relns ∧ r.smgr_owner ≠ none) ∧
      (∀ id ∈ sampleState.unowned_relns, ∀ p, ∃ st'',
         smgropen st' id.node id.backend p = Except.ok (st'', id) ∧
         lookupReln st''.relns id = some (freshEntry id p)) :=
  atEOXact_sweep_spec (by decide)
